import Mathlib

/-!
# Windows waveOut sink (`src/waveout.c`): shallow embedding

The sink owns a ring of four wave buffers.  The embedding keeps the C names.
The process heap, the driver's registration counter and the log of calls made
to the platform are explicit components of the `World`; the answers of the
platform (driver result codes, allocation success) are inputs of each
operation, collected in an `...Env` record.
-/

namespace Waveout

/-! ## Constants of the platform headers (Mmsystem.h, winerror.h) -/

/-- Result code of a multimedia call that succeeded (Mmsystem.h). -/
def MMSYSERR_NOERROR : Int := 0

/-- Result code "the buffer is still in the queue" (Mmsystem.h, WAVERR_BASE + 1). -/
def WAVERR_STILLPLAYING : Int := 33

/-- Success status of the sink operations (winerror.h). -/
def S_OK : Int := 0

/-- Header flag set by the driver while a header is prepared (Mmsystem.h). -/
def WHDR_PREPARED : Nat := 2

/-- Device identifier of the default wave mapper, `(UINT)-1` (Mmsystem.h). -/
def WAVE_MAPPER : Nat := 4294967295

/-- Number of wide characters of `WAVEOUTCAPS.szPname` (Mmsystem.h). -/
def MAXPNAMELEN : Nat := 32

/-- The ring mask `#define BUFFERMASK 3`. -/
def BUFFERMASK : Nat := 3

/-! ## Data model -/

/-- A manual-reset event object behind a `HANDLE`. -/
structure EventObj where
  signaled : Bool
  closed : Bool
deriving DecidableEq, Repr

/-- The fields of `WAVEHDR` the sink touches; `lpData = none` is the null pointer. -/
structure WAVEHDR where
  lpData : Option Nat
  dwBufferLength : Nat
  dwFlags : Nat
deriving DecidableEq, Repr

/-- The C `struct wavebuffer`. -/
structure wavebuffer where
  header : WAVEHDR
  buffersize : Nat
  ready : EventObj
deriving DecidableEq, Repr

/-- The C `struct waveout_object` (the vtable is not modelled). -/
structure waveout_object where
  waveout : Nat
  format : Option Nat
  devicename : Option (List Nat)
  deviceid : Nat
  bufferindex : Int
  bufferar : Fin 4 → wavebuffer

/-- The process heap: live blocks by address; `next` is the next fresh
address, beyond every live block. -/
structure Heap where
  next : Nat
  blocks : Nat → Option (List Nat)
  fresh : ∀ p, next ≤ p → blocks p = none

/-- A call made to the platform, as a mock driver would record it. -/
inductive Call where
  | CreateWaveFormat (format rate channels : Nat)
  | waveOutOpen (deviceid : Nat) (format : Option Nat)
  | waveOutClose (hwo : Nat)
  | waveOutReset (hwo : Nat)
  | waveOutPrepareHeader (slot : Fin 4) (hdr : WAVEHDR)
  | waveOutUnprepareHeader (slot : Fin 4) (hdr : WAVEHDR)
  | waveOutWrite (slot : Fin 4) (hdr : WAVEHDR)
  | CoTaskMemFree (p : Nat)
  | Sleep
deriving DecidableEq, Repr

/-- The sink together with everything its operations can affect: the heap, the
driver's count of registered headers, and the chronological log of calls. -/
structure World where
  self : waveout_object
  heap : Heap
  regs : Int
  calls : List Call

/-- How a call of a sink operation ends. -/
inductive Outcome (ρ : Type) where
  | returns (r : ρ) (w : World)
  | blocks
  | fault

/-- Messages the driver passes to `waveoutcallback`; `WOM_DONE` carries the
header (here: the ring slot) that completed. -/
inductive Msg where
  | WOM_OPEN
  | WOM_DONE (slot : Fin 4)
  | WOM_CLOSE
deriving DecidableEq, Repr

/-! ## Machine arithmetic -/

/-- The value of a 32-bit `LONG` holding the integer `v` (two's complement). -/
def wrapLong (v : Int) : Int := (v + 2147483648) % 4294967296 - 2147483648

/-- The effect of `InterlockedIncrement` on a `LONG`: the new value. -/
def InterlockedIncrement (v : Int) : Int := wrapLong (v + 1)

/-- The slot index `i1 & BUFFERMASK`, computed on the 32-bit pattern of `i1`. -/
def slotOf (i1 : Int) : Fin 4 :=
  ⟨(i1 % 4294967296).toNat &&& BUFFERMASK, Nat.lt_succ_of_le Nat.and_le_right⟩

/-- The value a `DWORD` field holds after a `size_t` is stored in it. -/
def toDWORD (n : Nat) : Nat := n % 4294967296

/-! ## Heap primitives -/

/-- A successful `malloc(n)`: a fresh block of `n` bytes (contents are
indeterminate in C and never read by the sink; zero here). -/
def Heap.malloc (h : Heap) (n : Nat) : Nat × Heap :=
  (h.next,
    { next := h.next + 1,
      blocks := Function.update h.blocks h.next (some (List.replicate n 0)),
      fresh := fun p hp => by
        have hne : p ≠ h.next := by omega
        rw [Function.update_noteq hne]
        exact h.fresh p (by omega) })

/-- Remove the block at `p`. -/
def Heap.remove (h : Heap) (p : Nat) : Heap :=
  { next := h.next,
    blocks := Function.update h.blocks p none,
    fresh := fun q hq => by
      by_cases hqp : q = p
      · rw [hqp, Function.update_same]
      · rw [Function.update_noteq hqp]
        exact h.fresh q hq }

/-- Replace the content of the live block at `a`. -/
def Heap.store (h : Heap) (a : Nat) (v : List Nat) (live : h.blocks a ≠ none) : Heap :=
  { next := h.next,
    blocks := Function.update h.blocks a (some v),
    fresh := fun q hq => by
      have hne : q ≠ a := fun e => live (e ▸ h.fresh q hq)
      rw [Function.update_noteq hne]
      exact h.fresh q hq }

/-- The call `free(p)` for a non-null `p`; freeing a block that is not live is undefined. -/
def Heap.free (h : Heap) (p : Nat) : Option Heap :=
  match h.blocks p with
  | some _ => some (h.remove p)
  | none => none

/-- The call `memcpy(p, data, n)`; undefined unless `p` is a live block of at
least `n` bytes and `data` has at least `n` bytes. -/
def Heap.memcpy (h : Heap) (p : Option Nat) (data : List Nat) (n : Nat) : Option Heap :=
  match p with
  | none => none
  | some a =>
    match hb : h.blocks a with
    | none => none
    | some region =>
      if n ≤ region.length ∧ n ≤ data.length then
        some (h.store a (data.take n ++ region.drop n) (by rw [hb]; exact Option.some_ne_none _))
      else none

/-! ## World updates -/

/-- Replace ring slot `k`. -/
def World.setBuffer (w : World) (k : Fin 4) (b : wavebuffer) : World :=
  { w with self := { w.self with bufferar := Function.update w.self.bufferar k b } }

/-- Append a call to the log. -/
def World.log (w : World) (c : Call) : World :=
  { w with calls := w.calls ++ [c] }

/-- The test `dwFlags & WHDR_PREPARED`. -/
def isPrepared (b : wavebuffer) : Bool :=
  b.header.dwFlags &&& WHDR_PREPARED != 0

/-! ## Driver effects

The driver's answer `mr` is an input; its effect on the header follows the
documented contract: preparing sets `WHDR_PREPARED` on success, unpreparing
clears it on success, and a failing call leaves the header alone.  The other
flag bits are never read by the sink and are not modelled. -/

/-- The call `waveOutPrepareHeader(self->waveout, &bufferar[k].header, ...)` answering `mr`. -/
def waveOutPrepareHeader (mr : Int) (w : World) (k : Fin 4) : World :=
  let b := w.self.bufferar k
  let w1 := w.log (Call.waveOutPrepareHeader k b.header)
  if mr = MMSYSERR_NOERROR then
    { w1.setBuffer k { b with header := { b.header with dwFlags := b.header.dwFlags ||| WHDR_PREPARED } }
      with regs := w1.regs + 1 }
  else w1

/-- The call `waveOutUnprepareHeader(self->waveout, &bufferar[k].header, ...)` answering `mr`. -/
def waveOutUnprepareHeader (mr : Int) (w : World) (k : Fin 4) : World :=
  let b := w.self.bufferar k
  let w1 := w.log (Call.waveOutUnprepareHeader k b.header)
  if mr = MMSYSERR_NOERROR then
    { w1.setBuffer k { b with header := { b.header with
        dwFlags := b.header.dwFlags ^^^ (b.header.dwFlags &&& WHDR_PREPARED) } }
      with regs := w1.regs - 1 }
  else w1

/-! ## The functions of waveout.c -/

/-- The C `inibuffer`: a fresh manual-reset event, initially signalled; no
capacity, no flags, no data.  `dwBufferLength` is not assigned. -/
def inibuffer (b : wavebuffer) : wavebuffer :=
  { header := { lpData := none, dwBufferLength := b.header.dwBufferLength, dwFlags := 0 },
    buffersize := 0,
    ready := { signaled := true, closed := false } }

/-- The statement `if (buffer->header.lpData) free(buffer->header.lpData);` on
slot `k`.  The pointer itself stays in the header. -/
def freeData (w : World) (k : Fin 4) : Option World :=
  match (w.self.bufferar k).header.lpData with
  | some p =>
    match w.heap.free p with
    | some h => some { w with heap := h }
    | none => none
  | none => some w

/-- The call `CloseHandle(buffer->ready)` on slot `k`. -/
def closeReady (w : World) (k : Fin 4) : World :=
  let b := w.self.bufferar k
  w.setBuffer k { b with ready := { b.ready with closed := true } }

/-- The C `finibuffer` on slot `k`: free the data if the pointer is non-null,
close the event handle. -/
def finibuffer (w : World) (k : Fin 4) : Option World :=
  (freeData w k).map (fun w1 => closeReady w1 k)

/-- The C `unprepare`: returns true if busy.  `mr` is the driver's answer,
used only if the header is prepared. -/
def unprepare (mr : Int) (w : World) (k : Fin 4) : Bool × World :=
  if isPrepared (w.self.bufferar k) then
    (decide (mr = WAVERR_STILLPLAYING), waveOutUnprepareHeader mr w k)
  else
    (false, w)

/-- The call `SetEvent(bufferar[k].ready)`. -/
def setEvent (self : waveout_object) (k : Fin 4) : waveout_object :=
  let b := self.bufferar k
  let b1 : wavebuffer := { b with ready := { b.ready with signaled := true } }
  { self with bufferar := Function.update self.bufferar k b1 }

/-- The C `waveoutcallback`, run by the driver's thread. -/
def waveoutcallback (self : waveout_object) : Msg → waveout_object
  | Msg.WOM_DONE k => setEvent self k
  | Msg.WOM_CLOSE => setEvent (setEvent (setEvent (setEvent self 0) 1) 2) 3
  | Msg.WOM_OPEN => self

/-- The platform's answers to the calls one `waveout_object_write` can make.
`mr0` is the indeterminate content of the local `mr`, which the function
declares without an initialiser. -/
structure WriteEnv where
  mr0 : Int
  unprepare : Int
  mallocOk : Bool
  errno : Int
  prepare : Int
  write : Int
deriving DecidableEq, Repr

/-- The statements `ResetEvent(buffer->ready); buffer->header.dwBufferLength =
bytes; memcpy(buffer->header.lpData, data, bytes);` on slot `k`. -/
def fill (w : World) (k : Fin 4) (data : List Nat) (bytes : Nat) : Option World :=
  let b := w.self.bufferar k
  let b1 : wavebuffer :=
    { b with ready := { b.ready with signaled := false },
             header := { b.header with dwBufferLength := toDWORD bytes } }
  (w.heap.memcpy b.header.lpData data bytes).map
    (fun h => ({ w with heap := h } : World).setBuffer k b1)

/-- The tail of `waveout_object_write` from `ResetEvent` on: fill the buffer,
hand it to `waveOutWrite`, return its status if it is not
`MMSYSERR_NOERROR`, else `S_OK`. -/
def submit (env : WriteEnv) (w : World) (k : Fin 4) (data : List Nat) (bytes : Nat) : Outcome Int :=
  match fill w k data bytes with
  | none => Outcome.fault
  | some w1 =>
    -- mr = waveOutWrite(self->waveout, &buffer->header, sizeof(WAVEHDR));
    let w2 := w1.log (Call.waveOutWrite k (w1.self.bufferar k).header)
    if env.write ≠ MMSYSERR_NOERROR then Outcome.returns env.write w2
    else Outcome.returns S_OK w2

/-- The statements `buffer->header.lpData = malloc(bytes); buffer->buffersize =
bytes; buffer->header.dwFlags = 0;` on slot `k` when `malloc` succeeds. -/
def mallocData (w : World) (k : Fin 4) (bytes : Nat) : World :=
  let b := w.self.bufferar k
  ({ w with heap := (w.heap.malloc bytes).2 } : World).setBuffer k
    { b with buffersize := bytes,
             header := { b.header with lpData := some (w.heap.malloc bytes).1, dwFlags := 0 } }

/-- The statements `buffer->header.lpData = malloc(bytes); buffer->buffersize =
0;` on slot `k` when `malloc` returns the null pointer. -/
def mallocFailed (w : World) (k : Fin 4) : World :=
  let b := w.self.bufferar k
  w.setBuffer k { b with buffersize := 0, header := { b.header with lpData := none } }

/-- The growth branch of `waveout_object_write` (`buffer->buffersize < bytes`). -/
def grow (env : WriteEnv) (w : World) (k : Fin 4) (data : List Nat) (bytes : Nat) : Outcome Int :=
  -- if (unprepare(self, buffer)) goto error;   (error: return mr;)
  match unprepare env.unprepare w k with
  | (true, w1) => Outcome.returns env.mr0 w1
  | (false, w1) =>
    match freeData w1 k with
    | none => Outcome.fault
    | some w2 =>
      if env.mallocOk then
        let w3 := waveOutPrepareHeader env.prepare (mallocData w2 k bytes) k
        -- if (mr != MMSYSERR_NOERROR) goto error;
        if env.prepare ≠ MMSYSERR_NOERROR then Outcome.returns env.prepare w3
        else submit env w3 k data bytes
      else
        -- if (!buffer->header.lpData && bytes) { buffer->buffersize = 0; return errno; }
        Outcome.returns env.errno (mallocFailed w2 k)

/-- The C `waveout_object_write`.  `data` is the memory behind the data
pointer.  Waiting on an event that is not signalled is the outcome `blocks`. -/
def waveout_object_write (env : WriteEnv) (w : World) (data : List Nat) (bytes : Nat) : Outcome Int :=
  if bytes ≠ 0 then
    -- i1 = InterlockedIncrement(&self->bufferindex); buffer = &self->bufferar[i1 & BUFFERMASK];
    let i1 := InterlockedIncrement w.self.bufferindex
    let w1 : World := { w with self := { w.self with bufferindex := i1 } }
    let k := slotOf i1
    -- WaitForSingleObject(buffer->ready, INFINITE);
    if (w1.self.bufferar k).ready.signaled then
      if (w1.self.bufferar k).buffersize < bytes then grow env w1 k data bytes
      else submit env w1 k data bytes
    else Outcome.blocks
  else Outcome.returns S_OK w

/-- The platform's answers during one `waveout_object_close`: the result of
`waveOutClose` (the code discards it), the callbacks the driver's thread runs
while close is in progress, and for each slot the successive answers of
`waveOutUnprepareHeader`. -/
structure CloseEnv where
  close : Int
  callbacks : List Msg
  unprepare : Fin 4 → List Int

/-- The loop `while (unprepare(self, &self->bufferar[k])) { Sleep(0); }` against
the listed answers; `none` when the driver still answers busy at the end of
the list, so the loop has not ended. -/
def spinUnprepare (k : Fin 4) : List Int → World → Option World
  | [], w => if isPrepared (w.self.bufferar k) then none else some w
  | mr :: rest, w =>
    match unprepare mr w k with
    | (true, w1) => spinUnprepare k rest (w1.log Call.Sleep)
    | (false, w1) => some w1

/-- The first loop of `waveout_object_close`, over the four slots. -/
def unprepareAll (env : CloseEnv) (w : World) : Option World :=
  (((spinUnprepare 0 (env.unprepare 0) w).bind
    (spinUnprepare 1 (env.unprepare 1))).bind
    (spinUnprepare 2 (env.unprepare 2))).bind
    (spinUnprepare 3 (env.unprepare 3))

/-- The waits `WaitForSingleObject(bufferar[i].ready, INFINITE)` for all four
slots return: every event is signalled. -/
def allReady (w : World) : Bool :=
  (w.self.bufferar 0).ready.signaled && (w.self.bufferar 1).ready.signaled &&
  (w.self.bufferar 2).ready.signaled && (w.self.bufferar 3).ready.signaled

/-- The third loop of `waveout_object_close`: `finibuffer` on the four slots. -/
def finiAll (w : World) : Option World :=
  (((finibuffer w 0).bind (fun w1 => finibuffer w1 1)).bind
    (fun w2 => finibuffer w2 2)).bind (fun w3 => finibuffer w3 3)

/-- The end of `waveout_object_close`: release the format descriptor. -/
def releaseFormat (w : World) : World :=
  match w.self.format with
  | some p => ({ w with self := { w.self with format := none } } : World).log (Call.CoTaskMemFree p)
  | none => w

/-- The C `waveout_object_close`. -/
def waveout_object_close (env : CloseEnv) (w : World) : Outcome Unit :=
  -- waveOutClose(self->waveout);
  let w0 := w.log (Call.waveOutClose w.self.waveout)
  let w1 : World := { w0 with self := env.callbacks.foldl waveoutcallback w0.self }
  match unprepareAll env w1 with
  | none => Outcome.blocks
  | some w2 =>
    if allReady w2 then
      match finiAll w2 with
      | none => Outcome.fault
      | some w3 => Outcome.returns () (releaseFormat w3)
    else Outcome.blocks

/-- The platform's answers during one `waveout_object_open`: the status of
`CreateWaveFormat` and the pointer it leaves in `self->format`, the result of
`waveOutOpen` and the handle it leaves in `self->waveout`, and the answers for
the `waveout_object_close` of the error path. -/
structure OpenEnv where
  hr : Int
  format : Option Nat
  mr : Int
  waveout : Nat
  close : CloseEnv

/-- The error path of `waveout_object_open`: `waveout_object_close(object); return err;`. -/
def openError (env : CloseEnv) (w : World) (err : Int) : Outcome Int :=
  match waveout_object_close env w with
  | Outcome.returns _ w1 => Outcome.returns err w1
  | Outcome.blocks => Outcome.blocks
  | Outcome.fault => Outcome.fault

/-- The start of `waveout_object_open`: `self->bufferindex = 0`, `inibuffer` on
every slot, then `CreateWaveFormat(format, rate, channels, &self->format)`. -/
def openInit (env : OpenEnv) (w : World) (format rate channels : Nat) : World :=
  let self1 : waveout_object :=
    { w.self with bufferindex := 0, bufferar := fun i => inibuffer (w.self.bufferar i) }
  ({ w with self := { self1 with format := env.format } } : World).log
    (Call.CreateWaveFormat format rate channels)

/-- The call `waveOutOpen(&self->waveout, self->deviceid, self->format, ...)`. -/
def openDevice (env : OpenEnv) (w : World) : World :=
  ({ w with self := { w.self with waveout := env.waveout } } : World).log
    (Call.waveOutOpen w.self.deviceid w.self.format)

/-- The C `waveout_object_open`; `FAILED(hr)` is `hr < 0`. -/
def waveout_object_open (env : OpenEnv) (w : World) (format rate channels : Nat) : Outcome Int :=
  let w1 := openInit env w format rate channels
  -- if (FAILED(hr)) { err = hr; goto error; }
  if env.hr < 0 then openError env.close w1 env.hr
  else
    let w2 := openDevice env w1
    -- if (mr != MMSYSERR_NOERROR) { err = mr; goto error; }
    if env.mr ≠ MMSYSERR_NOERROR then openError env.close w2 env.mr
    else Outcome.returns S_OK w2

/-- The C `waveout_object_drain`. -/
def waveout_object_drain (w : World) : Outcome Int :=
  if allReady w then Outcome.returns S_OK w else Outcome.blocks

/-- The C `waveout_object_flush`; the result of `waveOutReset` is discarded. -/
def waveout_object_flush (w : World) : Outcome Int :=
  Outcome.returns S_OK (w.log (Call.waveOutReset w.self.waveout))

/-! ## Sequences of operations on an open sink -/

/-- One step of a session: a producer call, or the driver's thread running the
callback between two producer calls. -/
inductive Op where
  | write (env : WriteEnv) (data : List Nat) (bytes : Nat)
  | drain
  | flush
  | callback (m : Msg)

/-- The world after a step that returns; `none` if the call blocks or faults. -/
def step (w : World) : Op → Option World
  | Op.write env data bytes =>
    match waveout_object_write env w data bytes with
    | Outcome.returns _ w1 => some w1
    | _ => none
  | Op.drain =>
    match waveout_object_drain w with
    | Outcome.returns _ w1 => some w1
    | _ => none
  | Op.flush =>
    match waveout_object_flush w with
    | Outcome.returns _ w1 => some w1
    | _ => none
  | Op.callback m => some { w with self := waveoutcallback w.self m }

/-- Run a list of steps, each one returning. -/
def run (w : World) : List Op → Option World
  | [] => some w
  | op :: rest => (step w op).bind (fun w1 => run w1 rest)

/-! ## Device resolution in create_waveout_object

A C wide string is the list of its characters before the terminating NUL;
reading at its end yields 0. -/

/-- The character `*p`. -/
def deref : List Nat → Nat
  | [] => 0
  | c :: _ => c

/-- The loop `while ((*p1 == *p2) && (*p1) && (*p2)) { p1++; p2++; }`: the
two pointers at exit and the distance `p2 - p3`, started at `n`. -/
def scanNames : List Nat → List Nat → Nat → List Nat × List Nat × Nat
  | c1 :: r1, c2 :: r2, n =>
    if c1 = c2 ∧ c1 ≠ 0 ∧ c2 ≠ 0 then scanNames r1 r2 (n + 1)
    else (c1 :: r1, c2 :: r2, n)
  | p1, p2, n => (p1, p2, n)

/-- The test `(!*p1) && (!*p2) || ((p2-p3) == MAXPNAMELEN-1)` after the loop. -/
def nameMatches (devicename szPname : List Nat) : Bool :=
  match scanNames devicename szPname 0 with
  | (p1, p2, n) => (deref p1 = 0 ∧ deref p2 = 0) ∨ n = MAXPNAMELEN - 1

/-- The loop over the device indices from `i1` on; each entry of the list is
the answer of `waveOutGetDevCaps` for the next index: its result code and the
name it stores in `caps.szPname`. -/
def findDevice (devicename : List Nat) : List (Int × List Nat) → Nat → Option Nat
  | [], _ => none
  | (mr, szPname) :: rest, i1 =>
    if mr = MMSYSERR_NOERROR ∧ nameMatches devicename szPname = true then some i1
    else findDevice devicename rest (i1 + 1)

/-- The device id `create_waveout_object` stores: `WAVE_MAPPER` unless a name
is given and some enumerated device matches it. -/
def resolveDeviceId (devicename : Option (List Nat)) (devs : List (Int × List Nat)) : Nat :=
  match devicename with
  | some name => (findDevice name devs 0).getD WAVE_MAPPER
  | none => WAVE_MAPPER

/-- The object `create_waveout_object` returns when its `malloc` succeeds:
`raw` is the uninitialised block, `devicename` the result of `str2wcs`. -/
def create_waveout_object (raw : waveout_object) (devicename : Option (List Nat))
    (devs : List (Int × List Nat)) : waveout_object :=
  { raw with waveout := 0, devicename := devicename, deviceid := resolveDeviceId devicename devs }

/-- The characters of a string literal as wide characters. -/
def wide (s : String) : List Nat := s.toList.map Char.toNat

/-! ## Predicates used in the statements -/

/-- The world `w1` differs from `w` at most in ring slot `k`, the heap, the
registration count and the call log. -/
def SlotStep (k : Fin 4) (w w1 : World) : Prop :=
  w1.self.waveout = w.self.waveout ∧ w1.self.format = w.self.format ∧
  w1.self.devicename = w.self.devicename ∧ w1.self.deviceid = w.self.deviceid ∧
  w1.self.bufferindex = w.self.bufferindex ∧
  ∀ j, j ≠ k → w1.self.bufferar j = w.self.bufferar j

/-- Slot `i` agrees with the heap: a null data pointer goes with capacity 0, a
non-null one refers to a live block whose size is the recorded capacity. -/
def SlotOk (w : World) (i : Fin 4) : Prop :=
  match (w.self.bufferar i).header.lpData with
  | none => (w.self.bufferar i).buffersize = 0
  | some p => ∃ region, w.heap.blocks p = some region ∧ (w.self.bufferar i).buffersize = region.length

/-- The memory invariant of an open sink: every slot agrees with the heap and
no two slots share a data block. -/
def Inv (w : World) : Prop :=
  (∀ i, SlotOk w i) ∧
  ∀ i j p, i ≠ j → (w.self.bufferar i).header.lpData = some p →
    (w.self.bufferar j).header.lpData ≠ some p

/-- An open sink: a state reached from a successful `waveout_object_open` by
writes, drains, flushes and driver callbacks that all returned. -/
def OpenSink (w : World) : Prop :=
  ∃ (env : OpenEnv) (w0 : World) (format rate channels : Nat) (wo : World) (ops : List Op),
    waveout_object_open env w0 format rate channels = Outcome.returns S_OK wo ∧
    run wo ops = some w

/-- The ring slot whose header a driver call is made on, if any. -/
def Call.slot : Call → Option (Fin 4)
  | Call.waveOutPrepareHeader k _ => some k
  | Call.waveOutUnprepareHeader k _ => some k
  | Call.waveOutWrite k _ => some k
  | _ => none

/-- The number of non-empty writes among the steps. -/
def writesIn : List Op → Nat
  | [] => 0
  | Op.write _ _ bytes :: rest => (if bytes ≠ 0 then 1 else 0) + writesIn rest
  | _ :: rest => writesIn rest

/-- The content of the data block of slot `i`, if the pointer refers to a live block. -/
def dataOf (w : World) (i : Fin 4) : Option (List Nat) :=
  match (w.self.bufferar i).header.lpData with
  | some p => w.heap.blocks p
  | none => none

/-! ## Concrete platforms and sessions used in the examples -/

/-- An uninitialised sink block: no slot is signalled or set up. -/
def rawObject : waveout_object :=
  { waveout := 0, format := none, devicename := none, deviceid := 0, bufferindex := 0,
    bufferar := fun _ =>
      { header := { lpData := none, dwBufferLength := 0, dwFlags := 0 },
        buffersize := 0, ready := { signaled := false, closed := true } } }

/-- The heap with no live block. -/
def emptyHeap : Heap := { next := 1, blocks := fun _ => none, fresh := fun _ _ => rfl }

/-- A created sink (default device) in an empty heap with an idle driver. -/
def world0 : World :=
  { self := create_waveout_object rawObject none [], heap := emptyHeap, regs := 0, calls := [] }

/-- A driver that lets close proceed: it delivers `WOM_CLOSE` and answers
every deregistration with success. -/
def okClose : CloseEnv :=
  { close := 0, callbacks := [Msg.WOM_CLOSE], unprepare := fun _ => [0] }

/-- A platform on which open succeeds. -/
def okOpen : OpenEnv :=
  { hr := 0, format := some 7, mr := 0, waveout := 1, close := okClose }

/-- A platform on which every step of a write succeeds. -/
def okWrite : WriteEnv :=
  { mr0 := 0, unprepare := 0, mallocOk := true, errno := 12, prepare := 0, write := 0 }

/-- A platform on which `malloc` fails with `ENOMEM`. -/
def oomWrite : WriteEnv := { okWrite with mallocOk := false }

/-- The world after a successful open of `world0`. -/
def openWorld : World :=
  match waveout_object_open okOpen world0 0 22050 1 with
  | Outcome.returns _ w => w
  | _ => world0

/-- The world after the listed steps on `openWorld` (unchanged world if a step
does not return). -/
def after (ops : List Op) : World := (run openWorld ops).getD world0

/-- The growing-buffer session: a 512-byte write on slot 1, its completion, and
three one-byte writes on slots 2, 3 and 0; the next write selects slot 1 again. -/
def growOps : List Op :=
  [Op.write okWrite (List.replicate 512 0) 512, Op.callback (Msg.WOM_DONE 1),
   Op.write okWrite [1] 1, Op.write okWrite [2] 1, Op.write okWrite [3] 1]

/-- A short playback session: one 4-byte write on slot 1 and its completion. -/
def playOps : List Op :=
  [Op.write okWrite [1, 2, 3, 4] 4, Op.callback (Msg.WOM_DONE 1)]

/-- A driver that delivers `WOM_CLOSE` but answers every deregistration with
`MMSYSERR_INVALHANDLE` (5), as for a handle that is already closed. -/
def errClose : CloseEnv :=
  { close := 0, callbacks := [Msg.WOM_CLOSE], unprepare := fun _ => [5] }

/-- C1: a write of zero bytes returns `S_OK` and leaves the world as it was:
the counter, every slot, the heap and the call log are untouched, whatever the
state (no slot needs to be ready) and whatever the data pointer. -/
theorem write_zero_noop (env : WriteEnv) (w : World) (data : List Nat) :
    waveout_object_write env w data 0 = Outcome.returns S_OK w := by
  simp [waveout_object_write]

/-! ### Device names -/

/-- The scan loop and the test after it, for strings without embedded NUL and a
device name that fits `szPname`: the test holds exactly when the strings are
equal or the scan started at `n` reaches position 31 at the end of `d`. -/
theorem scanNames_spec (r : List Nat) : ∀ (d : List Nat) (n : Nat),
    (∀ c ∈ r, c ≠ 0) → (∀ c ∈ d, c ≠ 0) → d.length + n ≤ 31 →
    (((deref (scanNames r d n).1 = 0 ∧ deref (scanNames r d n).2.1 = 0) ∨
        (scanNames r d n).2.2 = 31) ↔
      (r = d ∨ (d.length + n = 31 ∧ r.take d.length = d))) := by
  induction r with
  | nil =>
    intro d n _ hd hlen
    cases d with
    | nil => simp [scanNames, deref]
    | cons c2 r2 =>
      have h2 : c2 ≠ 0 := hd c2 (List.mem_cons_self _ _)
      simp only [List.length_cons] at hlen
      simp [scanNames, deref, h2]
      omega
  | cons c1 r1 ih =>
    intro d n hr hd hlen
    have h1 : c1 ≠ 0 := hr c1 (List.mem_cons_self _ _)
    cases d with
    | nil => simp [scanNames, deref, h1]
    | cons c2 r2 =>
      have h2 : c2 ≠ 0 := hd c2 (List.mem_cons_self _ _)
      simp only [List.length_cons] at hlen
      by_cases hc : c1 = c2
      · subst hc
        have hr1 : ∀ c ∈ r1, c ≠ 0 := fun c hc => hr c (List.mem_cons_of_mem _ hc)
        have hr2 : ∀ c ∈ r2, c ≠ 0 := fun c hc => hd c (List.mem_cons_of_mem _ hc)
        have := ih r2 (n + 1) hr1 hr2 (by omega)
        simp only [scanNames, h1, ne_eq, not_false_eq_true, and_self, if_true]
        rw [this]
        simp [List.length_cons]
        constructor
        · rintro (h | ⟨h, h'⟩)
          · exact Or.inl h
          · exact Or.inr ⟨by omega, h'⟩
        · rintro (h | ⟨h, h'⟩)
          · exact Or.inl h
          · exact Or.inr ⟨by omega, h'⟩
      · simp [scanNames, hc, deref, h1]
        omega

/-- The matching test in closed form, for a device name that fits `szPname`. -/
theorem nameMatches_closed (r d : List Nat) (hr : ∀ c ∈ r, c ≠ 0) (hd : ∀ c ∈ d, c ≠ 0)
    (hlen : d.length ≤ 31) :
    nameMatches r d = true ↔ (r = d ∨ (d.length = 31 ∧ r.take 31 = d)) := by
  have h := scanNames_spec r d 0 hr hd (by omega)
  have e : nameMatches r d = true ↔
      ((deref (scanNames r d 0).1 = 0 ∧ deref (scanNames r d 0).2.1 = 0) ∨
        (scanNames r d 0).2.2 = 31) := by
    simp [nameMatches, MAXPNAMELEN]
  rw [e, h]
  constructor
  · rintro (h1 | ⟨h1, h2⟩)
    · exact Or.inl h1
    · simp only [Nat.add_zero] at h1
      exact Or.inr ⟨h1, by rw [← h1]; exact h2⟩
  · rintro (h1 | ⟨h1, h2⟩)
    · exact Or.inl h1
    · exact Or.inr ⟨by omega, by rw [h1]; exact h2⟩

/-- C8: for a requested name `r` and an enumerated name `d` (the characters
before the terminating NUL; `d` fits the array `szPname`), the matching test
accepts exactly when `r` and `d` are equal, or both have at least
`MAXPNAMELEN - 1` characters and agree on the first `MAXPNAMELEN - 1`.  In
particular, when `d` is shorter than the maximum, a request that is a proper
initial part of `d`, or that extends `d`, is rejected. -/
theorem nameMatches_iff (r d : List Nat) (hr : ∀ c ∈ r, c ≠ 0) (hd : ∀ c ∈ d, c ≠ 0)
    (hlen : d.length ≤ MAXPNAMELEN - 1) :
    (nameMatches r d = true ↔
      (r = d ∨ (MAXPNAMELEN - 1 ≤ r.length ∧ MAXPNAMELEN - 1 ≤ d.length ∧
        r.take (MAXPNAMELEN - 1) = d.take (MAXPNAMELEN - 1)))) ∧
    (∀ x : List Nat, x ≠ [] → d.length < MAXPNAMELEN - 1 →
      (d = r ++ x → nameMatches r d = false) ∧ (r = d ++ x → nameMatches r d = false)) := by
  simp only [MAXPNAMELEN] at hlen ⊢
  have hc := nameMatches_closed r d hr hd (by omega)
  have htake : d.take 31 = d := List.take_of_length_le (by omega)
  refine ⟨?_, ?_⟩
  · rw [hc, htake]
    constructor
    · rintro (h | ⟨h1, h2⟩)
      · exact Or.inl h
      · refine Or.inr ⟨?_, by omega, h2⟩
        have := congrArg List.length h2
        simp only [List.length_take] at this
        omega
    · rintro (h | ⟨_, h2, h3⟩)
      · exact Or.inl h
      · exact Or.inr ⟨by omega, h3⟩
  · intro x hx hshort
    have hxlen : 0 < x.length := List.length_pos.mpr hx
    have hno : ¬ (nameMatches r d = true) → nameMatches r d = false := by
      intro h; simpa using h
    constructor
    · intro hd'
      apply hno
      rw [hc]
      rintro (h | ⟨h1, _⟩)
      · have := congrArg List.length hd'
        rw [← h] at this
        simp only [List.length_append] at this
        omega
      · omega
    · intro hr'
      apply hno
      rw [hc]
      rintro (h | ⟨h1, _⟩)
      · have := congrArg List.length hr'
        rw [h] at this
        simp only [List.length_append] at this
        omega
      · omega

/-- Witness for C8 on a device name of full length: the request that extends
`szPname` is accepted because the first 31 characters agree. -/
theorem nameMatches_iff_witness :
    (nameMatches (wide "SpeakerB-very-long-truncated-name-with-extra")
        (wide "SpeakerB-very-long-truncated-na") = true ↔
      (wide "SpeakerB-very-long-truncated-name-with-extra" = wide "SpeakerB-very-long-truncated-na" ∨
        (MAXPNAMELEN - 1 ≤ (wide "SpeakerB-very-long-truncated-name-with-extra").length ∧
          MAXPNAMELEN - 1 ≤ (wide "SpeakerB-very-long-truncated-na").length ∧
          (wide "SpeakerB-very-long-truncated-name-with-extra").take (MAXPNAMELEN - 1) =
            (wide "SpeakerB-very-long-truncated-na").take (MAXPNAMELEN - 1)))) ∧
    nameMatches (wide "SpeakerB-very-long-truncated-name-with-extra")
        (wide "SpeakerB-very-long-truncated-na") = true :=
  ⟨(nameMatches_iff (wide "SpeakerB-very-long-truncated-name-with-extra")
      (wide "SpeakerB-very-long-truncated-na") (by decide) (by decide) (by decide)).1, by decide⟩

/-- C6 (code at the failing input): on a freshly opened sink, a 4-byte write
whose hand-off `waveOutWrite` the driver rejects with status 7 returns 7, and
the selected slot 1 is left with `ready` lowered: `ResetEvent` ran before the
hand-off and the error path does not raise the event again. -/
theorem write_rejected_submit_leaves_ready_lowered :
    ∃ w, waveout_object_write { okWrite with write := 7 } openWorld [1, 2, 3, 4] 4 =
        Outcome.returns 7 w ∧
      (openWorld.self.bufferar 1).ready.signaled = true ∧
      (w.self.bufferar 1).ready.signaled = false ∧
      waveout_object_drain w = Outcome.blocks :=
  ⟨_, rfl, rfl, rfl, rfl⟩

/-- C5 (code at the failing input): slot 1 holds a registered 4-byte buffer
that has completed; three writes later an 8-byte write selects slot 1 again,
must grow it, and the driver answers the deregistration with
`WAVERR_STILLPLAYING`.  The write returns the content `mr0` of its local `mr`,
which was never assigned: with `mr0 = 0` it returns `S_OK`. -/
theorem write_busy_returns_unassigned_mr (mr0 : Int) :
    ∃ w, waveout_object_write
        { okWrite with mr0 := mr0, unprepare := WAVERR_STILLPLAYING }
        (after [Op.write okWrite [1, 2, 3, 4] 4, Op.callback (Msg.WOM_DONE 1),
                Op.write okWrite [1, 2, 3, 4] 4, Op.write okWrite [1, 2, 3, 4] 4,
                Op.write okWrite [1, 2, 3, 4] 4])
        [1, 2, 3, 4, 5, 6, 7, 8] 8 = Outcome.returns mr0 w ∧
      w.calls.getLast? = some (Call.waveOutUnprepareHeader 1
        { lpData := some 1, dwBufferLength := 4, dwFlags := 2 }) :=
  ⟨_, rfl, rfl⟩

/-- C10 (code at the failing input): the first write (8 bytes, slot 1) has
its registration rejected with status 7; the slot keeps capacity 8 with an
unregistered header.  Three writes later a 4-byte write selects slot 1, finds
the capacity sufficient, skips the registration branch and hands the header to
`waveOutWrite` with `WHDR_PREPARED` clear (the driver answers
`WAVERR_UNPREPARED`, 34).  The only calls ever made on slot 1 are the rejected
registration and this hand-off. -/
theorem write_submits_unregistered_header :
    (after [Op.write { okWrite with prepare := 7 } [1, 2, 3, 4, 5, 6, 7, 8] 8]).self.bufferar 1 =
        { header := { lpData := some 1, dwBufferLength := 0, dwFlags := 0 },
          buffersize := 8, ready := { signaled := true, closed := false } } ∧
    ∃ w, waveout_object_write { okWrite with write := 34 }
        (after [Op.write { okWrite with prepare := 7 } [1, 2, 3, 4, 5, 6, 7, 8] 8,
                Op.write okWrite [1, 2, 3, 4] 4, Op.write okWrite [1, 2, 3, 4] 4,
                Op.write okWrite [1, 2, 3, 4] 4])
        [9, 9, 9, 9] 4 = Outcome.returns 34 w ∧
      w.calls.filter (fun c => decide (c.slot = some 1)) =
        [Call.waveOutPrepareHeader 1 { lpData := some 1, dwBufferLength := 0, dwFlags := 0 },
         Call.waveOutWrite 1 { lpData := some 1, dwBufferLength := 4, dwFlags := 0 }] ∧
      isPrepared (w.self.bufferar 1) = false ∧
      (w.self.bufferar 1).buffersize = 8 ∧ w.regs = 3 :=
  ⟨rfl, _, rfl, rfl, rfl, rfl, rfl⟩

/-! ### Callbacks, close and open -/

/-- Raising an event changes nothing but the `signaled` state of that slot. -/
theorem setEvent_slot (self : waveout_object) (k i : Fin 4) :
    ((setEvent self k).bufferar i).header = (self.bufferar i).header ∧
    ((setEvent self k).bufferar i).buffersize = (self.bufferar i).buffersize ∧
    ((setEvent self k).bufferar i).ready.closed = (self.bufferar i).ready.closed ∧
    ((self.bufferar i).ready.signaled = true → ((setEvent self k).bufferar i).ready.signaled = true) ∧
    ((setEvent self k).bufferar k).ready.signaled = true := by
  by_cases h : i = k
  · subst h; simp [setEvent]
  · simp [setEvent, Function.update_noteq h]

/-- The callback only raises events. -/
theorem waveoutcallback_slot (self : waveout_object) (m : Msg) (i : Fin 4) :
    ((waveoutcallback self m).bufferar i).header = (self.bufferar i).header ∧
    ((waveoutcallback self m).bufferar i).buffersize = (self.bufferar i).buffersize ∧
    ((waveoutcallback self m).bufferar i).ready.closed = (self.bufferar i).ready.closed ∧
    ((self.bufferar i).ready.signaled = true →
      ((waveoutcallback self m).bufferar i).ready.signaled = true) := by
  cases m with
  | WOM_OPEN => simp [waveoutcallback]
  | WOM_DONE k =>
    have h := setEvent_slot self k i
    exact ⟨h.1, h.2.1, h.2.2.1, h.2.2.2.1⟩
  | WOM_CLOSE =>
    have h0 := setEvent_slot self 0 i
    have h1 := setEvent_slot (setEvent self 0) 1 i
    have h2 := setEvent_slot (setEvent (setEvent self 0) 1) 2 i
    have h3 := setEvent_slot (setEvent (setEvent (setEvent self 0) 1) 2) 3 i
    simp only [waveoutcallback]
    refine ⟨?_, ?_, ?_, ?_⟩
    · rw [h3.1, h2.1, h1.1, h0.1]
    · rw [h3.2.1, h2.2.1, h1.2.1, h0.2.1]
    · rw [h3.2.2.1, h2.2.2.1, h1.2.2.1, h0.2.2.1]
    · intro hs
      exact h3.2.2.2.1 (h2.2.2.2.1 (h1.2.2.2.1 (h0.2.2.2.1 hs)))

/-- The callback leaves the other fields of the sink alone. -/
theorem waveoutcallback_fields (self : waveout_object) (m : Msg) :
    (waveoutcallback self m).format = self.format ∧
    (waveoutcallback self m).waveout = self.waveout ∧
    (waveoutcallback self m).bufferindex = self.bufferindex := by
  cases m <;> simp [waveoutcallback, setEvent]

/-- A list of callbacks only raises events. -/
theorem callbacks_slot (ms : List Msg) : ∀ (self : waveout_object) (i : Fin 4),
    ((ms.foldl waveoutcallback self).bufferar i).header = (self.bufferar i).header ∧
    ((ms.foldl waveoutcallback self).bufferar i).buffersize = (self.bufferar i).buffersize ∧
    ((ms.foldl waveoutcallback self).bufferar i).ready.closed = (self.bufferar i).ready.closed ∧
    ((self.bufferar i).ready.signaled = true →
      ((ms.foldl waveoutcallback self).bufferar i).ready.signaled = true) ∧
    (ms.foldl waveoutcallback self).format = self.format ∧
    (ms.foldl waveoutcallback self).waveout = self.waveout ∧
    (ms.foldl waveoutcallback self).bufferindex = self.bufferindex := by
  induction ms with
  | nil => intro self i; simp
  | cons m rest ih =>
    intro self i
    have h := waveoutcallback_slot self m i
    have hf := waveoutcallback_fields self m
    have hr := ih (waveoutcallback self m) i
    simp only [List.foldl_cons]
    refine ⟨?_, ?_, ?_, ?_, ?_, ?_, ?_⟩
    · rw [hr.1, h.1]
    · rw [hr.2.1, h.2.1]
    · rw [hr.2.2.1, h.2.2.1]
    · intro hs; exact hr.2.2.2.1 (h.2.2.2 hs)
    · rw [hr.2.2.2.2.1, hf.1]
    · rw [hr.2.2.2.2.2.1, hf.2.1]
    · rw [hr.2.2.2.2.2.2, hf.2.2]

/-- The spin loop on a slot whose header is not prepared ends at once, without
a driver call, whatever answers are listed. -/
theorem spinUnprepare_idle (k : Fin 4) (answers : List Int) (w : World)
    (h : isPrepared (w.self.bufferar k) = false) : spinUnprepare k answers w = some w := by
  cases answers with
  | nil => simp [spinUnprepare, h]
  | cons mr rest => simp [spinUnprepare, unprepare, h]

/-- What freeing the data of slot `k` does when it returns: the block, if the
pointer is non-null, was live and is removed; the sink itself is untouched. -/
theorem freeData_spec (w w1 : World) (k : Fin 4) (h : freeData w k = some w1) :
    w1.self = w.self ∧ w1.regs = w.regs ∧ w1.calls = w.calls ∧ w1.heap.next = w.heap.next ∧
    ((w.self.bufferar k).header.lpData = none → w1.heap = w.heap) ∧
    (∀ p, (w.self.bufferar k).header.lpData = some p →
      w.heap.blocks p ≠ none ∧ w1.heap.blocks = Function.update w.heap.blocks p none) := by
  unfold freeData at h
  cases hp : (w.self.bufferar k).header.lpData with
  | none =>
    simp only [hp] at h
    injection h with h
    subst h
    exact ⟨rfl, rfl, rfl, rfl, fun _ => rfl, fun p hp2 => by simp at hp2⟩
  | some p =>
    simp only [hp] at h
    unfold Heap.free at h
    cases hb : w.heap.blocks p with
    | none => simp [hb] at h
    | some region =>
      simp only [hb] at h
      injection h with h
      subst h
      refine ⟨rfl, rfl, rfl, rfl, fun hnone => by simp at hnone, ?_⟩
      intro q hq
      simp only [Option.some.injEq] at hq
      subst hq
      exact ⟨by simp [hb], rfl⟩

/-- Freeing the data of a slot returns when the pointer is null or live. -/
theorem freeData_returns (w : World) (k : Fin 4)
    (h : ∀ p, (w.self.bufferar k).header.lpData = some p → w.heap.blocks p ≠ none) :
    ∃ w1, freeData w k = some w1 := by
  unfold freeData
  cases hp : (w.self.bufferar k).header.lpData with
  | none => exact ⟨w, rfl⟩
  | some p =>
    have := h p hp
    cases hb : w.heap.blocks p with
    | none => exact absurd hb this
    | some region => simp [Heap.free, hb]

/-- Closing the handle of slot `k` changes only the `closed` state of slot `k`. -/
theorem closeReady_spec (w : World) (k : Fin 4) :
    (closeReady w k).heap = w.heap ∧ (closeReady w k).regs = w.regs ∧
    (closeReady w k).calls = w.calls ∧ (closeReady w k).self.format = w.self.format ∧
    (closeReady w k).self.waveout = w.self.waveout ∧
    (closeReady w k).self.bufferindex = w.self.bufferindex ∧
    (∀ i, ((closeReady w k).self.bufferar i).header = (w.self.bufferar i).header ∧
      ((closeReady w k).self.bufferar i).buffersize = (w.self.bufferar i).buffersize ∧
      ((closeReady w k).self.bufferar i).ready.signaled = (w.self.bufferar i).ready.signaled ∧
      ((w.self.bufferar i).ready.closed = true →
        ((closeReady w k).self.bufferar i).ready.closed = true)) ∧
    ((closeReady w k).self.bufferar k).ready.closed = true := by
  refine ⟨rfl, rfl, rfl, rfl, rfl, rfl, ?_, by simp [closeReady, World.setBuffer]⟩
  intro i
  by_cases hik : i = k
  · subst hik; simp [closeReady, World.setBuffer]
  · simp [closeReady, World.setBuffer, Function.update_noteq hik]

/-- What `finibuffer` does when it returns: the handle of slot `k` is closed,
the data block of slot `k`, if any, was live and is freed, and nothing else
changes (the stale pointer stays in the header). -/
theorem finibuffer_spec (w w1 : World) (k : Fin 4) (h : finibuffer w k = some w1) :
    w1.regs = w.regs ∧ w1.calls = w.calls ∧ w1.self.format = w.self.format ∧
    w1.self.waveout = w.self.waveout ∧ w1.self.bufferindex = w.self.bufferindex ∧
    w1.heap.next = w.heap.next ∧
    (∀ i, (w1.self.bufferar i).header = (w.self.bufferar i).header ∧
      (w1.self.bufferar i).buffersize = (w.self.bufferar i).buffersize ∧
      (w1.self.bufferar i).ready.signaled = (w.self.bufferar i).ready.signaled ∧
      ((w.self.bufferar i).ready.closed = true → (w1.self.bufferar i).ready.closed = true)) ∧
    (w1.self.bufferar k).ready.closed = true ∧
    ((w.self.bufferar k).header.lpData = none → w1.heap = w.heap) ∧
    (∀ p, (w.self.bufferar k).header.lpData = some p →
      w.heap.blocks p ≠ none ∧ w1.heap.blocks = Function.update w.heap.blocks p none) := by
  unfold finibuffer at h
  obtain ⟨wf, hf, hc⟩ := Option.map_eq_some'.mp h
  subst hc
  obtain ⟨f1, f2, f3, f4, f5, f6⟩ := freeData_spec w wf k hf
  obtain ⟨c1, c2, c3, c4, c5, c6, c7, c8⟩ := closeReady_spec wf k
  refine ⟨by rw [c2, f2], by rw [c3, f3], by rw [c4, f1], by rw [c5, f1], by rw [c6, f1],
    by rw [c1, f4], ?_, c8, ?_, ?_⟩
  · intro i
    have := c7 i
    rw [f1] at this
    exact this
  · intro hn; rw [c1]; exact f5 hn
  · intro p hp; rw [c1]; exact f6 p hp

/-- The function `finibuffer` returns on a slot that holds no data. -/
theorem finibuffer_null (w : World) (k : Fin 4) (h : (w.self.bufferar k).header.lpData = none) :
    ∃ w1, finibuffer w k = some w1 := by
  simp [finibuffer, freeData, h]

/-- The heap across `finibuffer`: a block that is not live stays so, the data
block of slot `k` is not live afterwards, and every other address keeps its
content. -/
theorem finibuffer_heap (w w1 : World) (k : Fin 4) (h : finibuffer w k = some w1) :
    (∀ q, w.heap.blocks q = none → w1.heap.blocks q = none) ∧
    (∀ p, (w.self.bufferar k).header.lpData = some p → w1.heap.blocks p = none) ∧
    (∀ q, (w.self.bufferar k).header.lpData ≠ some q → w1.heap.blocks q = w.heap.blocks q) := by
  have hs := finibuffer_spec w w1 k h
  obtain ⟨-, -, -, -, -, -, -, -, hnone, hsome⟩ := hs
  cases hp : (w.self.bufferar k).header.lpData with
  | none =>
    have := hnone hp
    refine ⟨?_, ?_, ?_⟩
    · intro q hq; rw [this]; exact hq
    · intro p hp2; simp at hp2
    · intro q _; rw [this]
  | some p =>
    obtain ⟨-, hupd⟩ := hsome p hp
    refine ⟨?_, ?_, ?_⟩
    · intro q hq
      rw [hupd]
      by_cases hqp : q = p
      · subst hqp; simp
      · rw [Function.update_noteq hqp]; exact hq
    · intro p2 hp2
      simp only [Option.some.injEq] at hp2
      subst hp2
      rw [hupd]; simp
    · intro q hq
      have hqp : q ≠ p := fun e => hq (by rw [e])
      rw [hupd, Function.update_noteq hqp]

/-- What the finalising loop of close does when it returns: all four handles
are closed, no slot's data pointer refers to a live block, addresses that no
slot points to keep their content, and nothing else changes. -/
theorem finiAll_spec (w w4 : World) (h : finiAll w = some w4) :
    w4.regs = w.regs ∧ w4.calls = w.calls ∧ w4.self.format = w.self.format ∧
    w4.self.waveout = w.self.waveout ∧ w4.self.bufferindex = w.self.bufferindex ∧
    w4.heap.next = w.heap.next ∧
    (∀ i, (w4.self.bufferar i).header = (w.self.bufferar i).header ∧
      (w4.self.bufferar i).buffersize = (w.self.bufferar i).buffersize ∧
      (w4.self.bufferar i).ready.signaled = (w.self.bufferar i).ready.signaled ∧
      (w4.self.bufferar i).ready.closed = true) ∧
    (∀ i p, (w4.self.bufferar i).header.lpData = some p → w4.heap.blocks p = none) ∧
    (∀ q, (∀ i, (w.self.bufferar i).header.lpData ≠ some q) →
      w4.heap.blocks q = w.heap.blocks q) ∧
    ((∀ i, (w.self.bufferar i).header.lpData = none) → w4.heap = w.heap) := by
  unfold finiAll at h
  obtain ⟨w3, h3, h4⟩ := Option.bind_eq_some.mp h
  obtain ⟨w2, h2, h3⟩ := Option.bind_eq_some.mp h3
  obtain ⟨w1, h1, h2⟩ := Option.bind_eq_some.mp h2
  have s1 := finibuffer_spec w w1 0 h1
  have s2 := finibuffer_spec w1 w2 1 h2
  have s3 := finibuffer_spec w2 w3 2 h3
  have s4 := finibuffer_spec w3 w4 3 h4
  have g1 := finibuffer_heap w w1 0 h1
  have g2 := finibuffer_heap w1 w2 1 h2
  have g3 := finibuffer_heap w2 w3 2 h3
  have g4 := finibuffer_heap w3 w4 3 h4
  obtain ⟨a1, b1, c1, d1, e1, f1, sl1, cl1, hn1, -⟩ := s1
  obtain ⟨a2, b2, c2, d2, e2, f2, sl2, cl2, hn2, -⟩ := s2
  obtain ⟨a3, b3, c3, d3, e3, f3, sl3, cl3, hn3, -⟩ := s3
  obtain ⟨a4, b4, c4, d4, e4, f4, sl4, cl4, hn4, -⟩ := s4
  have hdr : ∀ i, (w4.self.bufferar i).header = (w.self.bufferar i).header := by
    intro i; rw [(sl4 i).1, (sl3 i).1, (sl2 i).1, (sl1 i).1]
  have hdr1 : ∀ i, (w1.self.bufferar i).header = (w.self.bufferar i).header := fun i => (sl1 i).1
  have hdr2 : ∀ i, (w2.self.bufferar i).header = (w.self.bufferar i).header := by
    intro i; rw [(sl2 i).1, (sl1 i).1]
  have hdr3 : ∀ i, (w3.self.bufferar i).header = (w.self.bufferar i).header := by
    intro i; rw [(sl3 i).1, (sl2 i).1, (sl1 i).1]
  refine ⟨by rw [a4, a3, a2, a1], by rw [b4, b3, b2, b1], by rw [c4, c3, c2, c1],
    by rw [d4, d3, d2, d1], by rw [e4, e3, e2, e1], by rw [f4, f3, f2, f1], ?_, ?_, ?_, ?_⟩
  · intro i
    refine ⟨hdr i, by rw [(sl4 i).2.1, (sl3 i).2.1, (sl2 i).2.1, (sl1 i).2.1],
      by rw [(sl4 i).2.2.1, (sl3 i).2.2.1, (sl2 i).2.2.1, (sl1 i).2.2.1], ?_⟩
    fin_cases i
    · exact (sl4 0).2.2.2 ((sl3 0).2.2.2 ((sl2 0).2.2.2 cl1))
    · exact (sl4 1).2.2.2 ((sl3 1).2.2.2 cl2)
    · exact (sl4 2).2.2.2 cl3
    · exact cl4
  · intro i p hp
    rw [hdr i] at hp
    fin_cases i
    · exact g4.1 p (g3.1 p (g2.1 p (g1.2.1 p hp)))
    · exact g4.1 p (g3.1 p (g2.2.1 p (by rw [hdr1]; exact hp)))
    · exact g4.1 p (g3.2.1 p (by rw [hdr2]; exact hp))
    · exact g4.2.1 p (by rw [hdr3]; exact hp)
  · intro q hq
    rw [g4.2.2 q (by rw [hdr3]; exact hq 3), g3.2.2 q (by rw [hdr2]; exact hq 2),
      g2.2.2 q (by rw [hdr1]; exact hq 1), g1.2.2 q (hq 0)]
  · intro hall
    rw [hn4 (by rw [hdr3]; exact hall 3), hn3 (by rw [hdr2]; exact hall 2),
      hn2 (by rw [hdr1]; exact hall 1), hn1 (hall 0)]

/-- The finalising loop returns when no slot holds data. -/
theorem finiAll_null (w : World) (h : ∀ i, (w.self.bufferar i).header.lpData = none) :
    ∃ w4, finiAll w = some w4 := by
  obtain ⟨w1, h1⟩ := finibuffer_null w 0 (h 0)
  have s1 := finibuffer_spec w w1 0 h1
  obtain ⟨w2, h2⟩ := finibuffer_null w1 1 (by rw [(s1.2.2.2.2.2.2.1 1).1]; exact h 1)
  have s2 := finibuffer_spec w1 w2 1 h2
  obtain ⟨w3, h3⟩ := finibuffer_null w2 2
    (by rw [(s2.2.2.2.2.2.2.1 2).1, (s1.2.2.2.2.2.2.1 2).1]; exact h 2)
  have s3 := finibuffer_spec w2 w3 2 h3
  obtain ⟨w4, h4⟩ := finibuffer_null w3 3
    (by rw [(s3.2.2.2.2.2.2.1 3).1, (s2.2.2.2.2.2.2.1 3).1, (s1.2.2.2.2.2.2.1 3).1]; exact h 3)
  exact ⟨w4, by simp [finiAll, h1, h2, h3, h4]⟩

/-- Releasing the format descriptor nulls the pointer, logs the release of a
non-null descriptor and changes nothing else. -/
theorem releaseFormat_spec (w : World) :
    (releaseFormat w).self.format = none ∧ (releaseFormat w).heap = w.heap ∧
    (releaseFormat w).regs = w.regs ∧ (releaseFormat w).self.bufferar = w.self.bufferar ∧
    (releaseFormat w).self.waveout = w.self.waveout ∧
    (releaseFormat w).self.bufferindex = w.self.bufferindex ∧
    (releaseFormat w).calls = w.calls ++
      (match w.self.format with
       | some p => [Call.CoTaskMemFree p]
       | none => []) := by
  unfold releaseFormat
  cases h : w.self.format with
  | none => simp [h]
  | some p => simp [World.log]

/-- Close on a sink whose four slots are as `inibuffer` leaves them (no data,
header not prepared, event signalled) returns whatever the driver answers: it
makes no deregistration call, frees nothing, closes the four handles and
releases the format descriptor. -/
theorem close_of_fresh (env : CloseEnv) (w : World)
    (h : ∀ i, isPrepared (w.self.bufferar i) = false ∧
      (w.self.bufferar i).header.lpData = none ∧ (w.self.bufferar i).ready.signaled = true) :
    ∃ w1, waveout_object_close env w = Outcome.returns () w1 ∧
      w1.self.format = none ∧ w1.heap = w.heap ∧ w1.regs = w.regs ∧
      w1.self.waveout = w.self.waveout ∧ w1.self.bufferindex = w.self.bufferindex ∧
      w1.calls = w.calls ++ Call.waveOutClose w.self.waveout ::
        (match w.self.format with
         | some p => [Call.CoTaskMemFree p]
         | none => []) ∧
      ∀ i, (w1.self.bufferar i).header = (w.self.bufferar i).header ∧
        (w1.self.bufferar i).buffersize = (w.self.bufferar i).buffersize ∧
        (w1.self.bufferar i).ready.closed = true ∧
        (w1.self.bufferar i).ready.signaled = true := by
  let wa : World :=
    { (w.log (Call.waveOutClose w.self.waveout)) with
      self := env.callbacks.foldl waveoutcallback (w.log (Call.waveOutClose w.self.waveout)).self }
  have hcb : ∀ i, _ := fun i => callbacks_slot env.callbacks w.self i
  have hwa : ∀ i, (wa.self.bufferar i).header = (w.self.bufferar i).header ∧
      (wa.self.bufferar i).buffersize = (w.self.bufferar i).buffersize ∧
      (wa.self.bufferar i).ready.signaled = true := by
    intro i
    exact ⟨(hcb i).1, (hcb i).2.1, (hcb i).2.2.2.1 (h i).2.2⟩
  have hprep : ∀ i, isPrepared (wa.self.bufferar i) = false := by
    intro i
    have := (h i).1
    simp only [isPrepared] at this ⊢
    rw [(hwa i).1]; exact this
  have hun : unprepareAll env wa = some wa := by
    simp [unprepareAll, spinUnprepare_idle, hprep]
  have hready : allReady wa = true := by
    unfold allReady
    rw [(hwa 0).2.2, (hwa 1).2.2, (hwa 2).2.2, (hwa 3).2.2]
    rfl
  have hnull : ∀ i, (wa.self.bufferar i).header.lpData = none := by
    intro i; rw [(hwa i).1]; exact (h i).2.1
  obtain ⟨w4, h4⟩ := finiAll_null wa hnull
  have s4 := finiAll_spec wa w4 h4
  have hr := releaseFormat_spec w4
  have hclose : waveout_object_close env w = Outcome.returns () (releaseFormat w4) := by
    show (match unprepareAll env wa with
      | none => Outcome.blocks
      | some w2 =>
        if allReady w2 then
          match finiAll w2 with
          | none => Outcome.fault
          | some w3 => Outcome.returns () (releaseFormat w3)
        else Outcome.blocks) = _
    simp [hun, hready, h4]
  obtain ⟨a, b, c, d, e, f, sl, -, -, hheap⟩ := s4
  have hfmt : w4.self.format = w.self.format := by rw [c]; exact (hcb 0).2.2.2.2.1
  refine ⟨_, hclose, hr.1, ?_, ?_, ?_, ?_, ?_, ?_⟩
  · rw [hr.2.1, hheap hnull]; rfl
  · rw [hr.2.2.1, a]; rfl
  · rw [hr.2.2.2.2.1, d]; exact (hcb 0).2.2.2.2.2.1
  · rw [hr.2.2.2.2.2.1, e]; exact (hcb 0).2.2.2.2.2.2
  · rw [hr.2.2.2.2.2.2, b, hfmt]
    simp [wa, World.log]
  · intro i
    rw [hr.2.2.2.1]
    exact ⟨by rw [(sl i).1, (hwa i).1], by rw [(sl i).2.1, (hwa i).2.1], (sl i).2.2.2,
      by rw [(sl i).2.2.1]; exact (hwa i).2.2⟩

/-- The slots as `inibuffer` leaves them. -/
theorem inibuffer_fresh (b : wavebuffer) :
    isPrepared (inibuffer b) = false ∧ (inibuffer b).header.lpData = none ∧
    (inibuffer b).ready.signaled = true ∧ (inibuffer b).buffersize = 0 ∧
    (inibuffer b).ready.closed = false := by
  exact ⟨by simp [isPrepared, inibuffer, WHDR_PREPARED], rfl, rfl, rfl, rfl⟩

/-- Open, case by case: it always returns; the status, the calls made and the
state left behind in each of the three cases (format build failed, driver open
failed, success).  In every case heap and registration count are those before
the call and every slot is free: not registered, without data, signalled. -/
theorem open_cases (env : OpenEnv) (w : World) (format rate channels : Nat) :
    ∃ r w1, waveout_object_open env w format rate channels = Outcome.returns r w1 ∧
      (r = S_OK ↔ (¬ env.hr < 0 ∧ env.mr = MMSYSERR_NOERROR)) ∧
      (env.hr < 0 → r = env.hr ∧
        w1.calls = w.calls ++ [Call.CreateWaveFormat format rate channels] ++
          Call.waveOutClose w.self.waveout ::
            (match env.format with
             | some p => [Call.CoTaskMemFree p]
             | none => []) ∧
        ∀ id f, Call.waveOutOpen id f ∈ w1.calls → Call.waveOutOpen id f ∈ w.calls) ∧
      (¬ env.hr < 0 → env.mr ≠ MMSYSERR_NOERROR → r = env.mr ∧
        w1.calls = w.calls ++ [Call.CreateWaveFormat format rate channels] ++
          [Call.waveOutOpen w.self.deviceid env.format] ++
          Call.waveOutClose env.waveout ::
            (match env.format with
             | some p => [Call.CoTaskMemFree p]
             | none => [])) ∧
      (r ≠ S_OK →
        (∃ w0, waveout_object_close env.close w0 = Outcome.returns () w1) ∧
        w1.self.format = none ∧ w1.heap = w.heap ∧ w1.regs = w.regs ∧
        (∀ i, (w1.self.bufferar i).ready.closed = true ∧
          (w1.self.bufferar i).header.lpData = none ∧
          isPrepared (w1.self.bufferar i) = false ∧ (w1.self.bufferar i).buffersize = 0) ∧
        ∀ (env2 : OpenEnv) (f2 r2 c2 : Nat), ¬ env2.hr < 0 → env2.mr = MMSYSERR_NOERROR →
          ∃ w2, waveout_object_open env2 w1 f2 r2 c2 = Outcome.returns S_OK w2) ∧
      w1.heap = w.heap ∧ w1.regs = w.regs ∧
      (∀ i, isPrepared (w1.self.bufferar i) = false ∧
        (w1.self.bufferar i).header.lpData = none ∧
        (w1.self.bufferar i).ready.signaled = true) := by
  have hreopen : ∀ (w1 : World) (env2 : OpenEnv) (f2 r2 c2 : Nat), ¬ env2.hr < 0 →
      env2.mr = MMSYSERR_NOERROR →
      ∃ w2, waveout_object_open env2 w1 f2 r2 c2 = Outcome.returns S_OK w2 := by
    intro w1 env2 f2 r2 c2 h1 h2
    exact ⟨openDevice env2 (openInit env2 w1 f2 r2 c2), by simp [waveout_object_open, h1, h2]⟩
  -- the state on which the error path runs close, in its two variants
  have herr : ∀ (wa : World) (err : Int),
      (∀ i, wa.self.bufferar i = inibuffer (w.self.bufferar i)) →
      ∃ w1, openError env.close wa err = Outcome.returns err w1 ∧
        waveout_object_close env.close wa = Outcome.returns () w1 ∧
        w1.self.format = none ∧ w1.heap = wa.heap ∧ w1.regs = wa.regs ∧
        w1.calls = wa.calls ++ Call.waveOutClose wa.self.waveout ::
          (match wa.self.format with
           | some p => [Call.CoTaskMemFree p]
           | none => []) ∧
        (∀ i, (w1.self.bufferar i).ready.closed = true ∧
          (w1.self.bufferar i).header.lpData = none ∧
          isPrepared (w1.self.bufferar i) = false ∧ (w1.self.bufferar i).buffersize = 0) ∧
        (∀ i, (w1.self.bufferar i).ready.signaled = true) := by
    intro wa err hwa
    have hfresh : ∀ i, isPrepared (wa.self.bufferar i) = false ∧
        (wa.self.bufferar i).header.lpData = none ∧
        (wa.self.bufferar i).ready.signaled = true := by
      intro i
      rw [hwa i]
      exact ⟨(inibuffer_fresh _).1, (inibuffer_fresh _).2.1, (inibuffer_fresh _).2.2.1⟩
    obtain ⟨w1, hc, hf, hh, hr, -, -, hcalls, hsl⟩ := close_of_fresh env.close wa hfresh
    refine ⟨w1, by simp [openError, hc], hc, hf, hh, hr, hcalls, ?_, fun i => (hsl i).2.2.2⟩
    intro i
    refine ⟨(hsl i).2.2.1, ?_, ?_, ?_⟩
    · rw [(hsl i).1]; exact (hfresh i).2.1
    · have := (hfresh i).1
      simp only [isPrepared] at this ⊢
      rw [(hsl i).1]; exact this
    · rw [(hsl i).2.1, hwa i]; rfl
  by_cases hhr : env.hr < 0
  · obtain ⟨w1, ho, hc, hf, hh, hr, hcalls, hsl, hsig⟩ := herr (openInit env w format rate channels)
      env.hr (fun i => rfl)
    have hne : env.hr ≠ S_OK := by simp only [S_OK]; omega
    have hcalls2 : w1.calls = w.calls ++ [Call.CreateWaveFormat format rate channels] ++
        Call.waveOutClose w.self.waveout ::
          (match env.format with
           | some p => [Call.CoTaskMemFree p]
           | none => []) := by
      rw [hcalls]; rfl
    refine ⟨env.hr, w1, by simp [waveout_object_open, hhr, ho], ?_, ?_, ?_, ?_, hh, hr,
      fun i => ⟨(hsl i).2.2.1, (hsl i).2.1, hsig i⟩⟩
    · constructor
      · intro h; exact absurd h hne
      · intro h; exact absurd hhr h.1
    · intro _
      refine ⟨rfl, hcalls2, ?_⟩
      intro id f hmem
      rw [hcalls2] at hmem
      cases hfm : env.format <;> simp [hfm] at hmem <;> exact hmem
    · intro h; exact absurd hhr h
    · intro _
      exact ⟨⟨_, hc⟩, hf, hh, hr, hsl, hreopen w1⟩
  · by_cases hmr : env.mr = MMSYSERR_NOERROR
    · refine ⟨S_OK, openDevice env (openInit env w format rate channels),
        by simp [waveout_object_open, hhr, hmr], ?_, ?_, ?_, ?_, rfl, rfl,
        fun i => ⟨(inibuffer_fresh _).1, (inibuffer_fresh _).2.1, (inibuffer_fresh _).2.2.1⟩⟩
      · exact ⟨fun _ => ⟨hhr, hmr⟩, fun _ => rfl⟩
      · intro h; exact absurd h hhr
      · intro _ h; exact absurd hmr h
      · intro h; exact absurd rfl h
    · obtain ⟨w1, ho, hc, hf, hh, hr, hcalls, hsl, hsig⟩ := herr
        (openDevice env (openInit env w format rate channels))
        env.mr (fun i => rfl)
      have hne : env.mr ≠ S_OK := hmr
      refine ⟨env.mr, w1, ?_, ?_, ?_, ?_, ?_, hh, hr,
        fun i => ⟨(hsl i).2.2.1, (hsl i).2.1, hsig i⟩⟩
      · simp only [waveout_object_open, hhr, if_false, hmr, ne_eq, not_false_eq_true, if_true]
        exact ho
      · constructor
        · intro h; exact absurd h hne
        · intro h; exact absurd h.2 hmr
      · intro h; exact absurd h hhr
      · intro _ _
        refine ⟨rfl, ?_⟩
        rw [hcalls]; simp [World.log, openDevice, openInit]
      · intro _
        exact ⟨⟨_, hc⟩, hf, hh, hr, hsl, hreopen w1⟩

/-- C4: `waveout_object_open` always returns, and returns `S_OK` exactly when
the format build succeeds (`hr` not negative) and the driver's open succeeds.
If the format build fails the status is `hr` and the calls made are the format
build, the driver's close and the release of a non-null descriptor: the
driver's open is not among them.  If the driver's open fails the status is the
driver's `mr`.  After either failure close has run on the state reached: the
format pointer is null, every slot is finalised (handle closed, no data, not
registered), heap and registration count are as before the call, and a later
open on a cooperating platform returns `S_OK`. -/
theorem open_status (env : OpenEnv) (w : World) (format rate channels : Nat) :
    ∃ r w1, waveout_object_open env w format rate channels = Outcome.returns r w1 ∧
      (r = S_OK ↔ (¬ env.hr < 0 ∧ env.mr = MMSYSERR_NOERROR)) ∧
      (env.hr < 0 → r = env.hr ∧
        w1.calls = w.calls ++ [Call.CreateWaveFormat format rate channels] ++
          Call.waveOutClose w.self.waveout ::
            (match env.format with
             | some p => [Call.CoTaskMemFree p]
             | none => []) ∧
        ∀ id f, Call.waveOutOpen id f ∈ w1.calls → Call.waveOutOpen id f ∈ w.calls) ∧
      (¬ env.hr < 0 → env.mr ≠ MMSYSERR_NOERROR → r = env.mr ∧
        w1.calls = w.calls ++ [Call.CreateWaveFormat format rate channels] ++
          [Call.waveOutOpen w.self.deviceid env.format] ++
          Call.waveOutClose env.waveout ::
            (match env.format with
             | some p => [Call.CoTaskMemFree p]
             | none => [])) ∧
      (r ≠ S_OK →
        (∃ w0, waveout_object_close env.close w0 = Outcome.returns () w1) ∧
        w1.self.format = none ∧ w1.heap = w.heap ∧ w1.regs = w.regs ∧
        (∀ i, (w1.self.bufferar i).ready.closed = true ∧
          (w1.self.bufferar i).header.lpData = none ∧
          isPrepared (w1.self.bufferar i) = false ∧ (w1.self.bufferar i).buffersize = 0) ∧
        ∀ (env2 : OpenEnv) (f2 r2 c2 : Nat), ¬ env2.hr < 0 → env2.mr = MMSYSERR_NOERROR →
          ∃ w2, waveout_object_open env2 w1 f2 r2 c2 = Outcome.returns S_OK w2) := by
  obtain ⟨r, w1, h, a, b, c, d, -⟩ := open_cases env w format rate channels
  exact ⟨r, w1, h, a, b, c, d⟩

/-- Witness for C4 with an injected driver-open failure (status 4) on the
created sink: open returns 4, the descriptor 7 built for it is released, and a
second open on a cooperating platform returns `S_OK`. -/
theorem open_status_witness :
    ∃ w1, waveout_object_open { okOpen with mr := 4 } world0 0 22050 1 = Outcome.returns 4 w1 ∧
      w1.self.format = none ∧
      w1.calls = [Call.CreateWaveFormat 0 22050 1, Call.waveOutOpen WAVE_MAPPER (some 7),
        Call.waveOutClose 1, Call.CoTaskMemFree 7] ∧
      ∃ w2, waveout_object_open okOpen w1 0 22050 1 = Outcome.returns S_OK w2 := by
  obtain ⟨r, w1, h, -, -, hmr, hfail⟩ := open_status { okOpen with mr := 4 } world0 0 22050 1
  have h4 := hmr (by decide) (by decide)
  have hr : r = 4 := h4.1
  subst hr
  have hf := hfail (by decide)
  exact ⟨w1, h, hf.2.1, h4.2, hf.2.2.2.2.2 okOpen 0 22050 1 (by decide) rfl⟩

/-! ### The steps of a write -/

/-- Clearing the flag clears it. -/
theorem xor_and_two (f : Nat) : (f ^^^ (f &&& 2)) &&& 2 = 0 := by
  apply Nat.eq_of_testBit_eq
  intro i
  simp only [Nat.testBit_and, Nat.testBit_xor, Nat.zero_testBit]
  cases h1 : f.testBit i <;> cases h2 : Nat.testBit 2 i <;> simp

/-- Setting the flag sets it. -/
theorem or_and_two (f : Nat) : (f ||| 2) &&& 2 = 2 := by
  apply Nat.eq_of_testBit_eq
  intro i
  simp only [Nat.testBit_and, Nat.testBit_or]
  cases h1 : f.testBit i <;> cases h2 : Nat.testBit 2 i <;> simp

theorem SlotStep.rfl (k : Fin 4) (w : World) : SlotStep k w w :=
  ⟨Eq.refl _, Eq.refl _, Eq.refl _, Eq.refl _, Eq.refl _, fun _ _ => Eq.refl _⟩

theorem SlotStep.trans {k : Fin 4} {w w1 w2 : World} (h1 : SlotStep k w w1)
    (h2 : SlotStep k w1 w2) : SlotStep k w w2 := by
  obtain ⟨a1, b1, c1, d1, e1, f1⟩ := h1
  obtain ⟨a2, b2, c2, d2, e2, f2⟩ := h2
  exact ⟨a2.trans a1, b2.trans b1, c2.trans c1, d2.trans d1, e2.trans e1,
    fun j hj => (f2 j hj).trans (f1 j hj)⟩

/-- Replacing slot `k` is a step on slot `k`. -/
theorem setBuffer_spec (w : World) (k : Fin 4) (b : wavebuffer) :
    SlotStep k w (w.setBuffer k b) ∧ (w.setBuffer k b).self.bufferar k = b ∧
    (w.setBuffer k b).heap = w.heap ∧ (w.setBuffer k b).regs = w.regs ∧
    (w.setBuffer k b).calls = w.calls := by
  refine ⟨⟨rfl, rfl, rfl, rfl, rfl, ?_⟩, by simp [World.setBuffer], rfl, rfl, rfl⟩
  intro j hj
  simp [World.setBuffer, Function.update_noteq hj]

/-- The effect of a deregistration call on slot `k`. -/
theorem waveOutUnprepareHeader_spec (mr : Int) (w : World) (k : Fin 4) :
    SlotStep k w (waveOutUnprepareHeader mr w k) ∧
    (waveOutUnprepareHeader mr w k).heap = w.heap ∧
    (waveOutUnprepareHeader mr w k).calls =
      w.calls ++ [Call.waveOutUnprepareHeader k (w.self.bufferar k).header] ∧
    ((waveOutUnprepareHeader mr w k).self.bufferar k).header.lpData =
      (w.self.bufferar k).header.lpData ∧
    ((waveOutUnprepareHeader mr w k).self.bufferar k).header.dwBufferLength =
      (w.self.bufferar k).header.dwBufferLength ∧
    ((waveOutUnprepareHeader mr w k).self.bufferar k).buffersize = (w.self.bufferar k).buffersize ∧
    ((waveOutUnprepareHeader mr w k).self.bufferar k).ready = (w.self.bufferar k).ready ∧
    (mr = MMSYSERR_NOERROR → isPrepared ((waveOutUnprepareHeader mr w k).self.bufferar k) = false ∧
      (waveOutUnprepareHeader mr w k).regs = w.regs - 1) ∧
    (mr ≠ MMSYSERR_NOERROR →
      (waveOutUnprepareHeader mr w k).self.bufferar k = w.self.bufferar k ∧
      (waveOutUnprepareHeader mr w k).regs = w.regs) := by
  by_cases hmr : mr = MMSYSERR_NOERROR
  · have hs := setBuffer_spec (w.log (Call.waveOutUnprepareHeader k (w.self.bufferar k).header)) k
      { w.self.bufferar k with header := { (w.self.bufferar k).header with
          dwFlags := (w.self.bufferar k).header.dwFlags ^^^
            ((w.self.bufferar k).header.dwFlags &&& WHDR_PREPARED) } }
    have e : waveOutUnprepareHeader mr w k =
        { (w.log (Call.waveOutUnprepareHeader k (w.self.bufferar k).header)).setBuffer k
            { w.self.bufferar k with header := { (w.self.bufferar k).header with
              dwFlags := (w.self.bufferar k).header.dwFlags ^^^
                ((w.self.bufferar k).header.dwFlags &&& WHDR_PREPARED) } }
          with regs := w.regs - 1 } := by
      simp [waveOutUnprepareHeader, hmr, World.log]
    rw [e]
    refine ⟨hs.1, rfl, rfl, ?_, ?_, ?_, ?_, ?_, fun h => absurd hmr h⟩
    · simp [World.setBuffer, World.log]
    · simp [World.setBuffer, World.log]
    · simp [World.setBuffer, World.log]
    · simp [World.setBuffer, World.log]
    · intro _
      refine ⟨?_, rfl⟩
      simp [World.setBuffer, World.log, isPrepared, WHDR_PREPARED, xor_and_two]
  · have e : waveOutUnprepareHeader mr w k =
        w.log (Call.waveOutUnprepareHeader k (w.self.bufferar k).header) := by
      simp [waveOutUnprepareHeader, hmr]
    rw [e]
    exact ⟨SlotStep.rfl k _, rfl, rfl, rfl, rfl, rfl, rfl, fun h => absurd h hmr,
      fun _ => ⟨rfl, rfl⟩⟩

/-- The effect of a registration call on slot `k`. -/
theorem waveOutPrepareHeader_spec (mr : Int) (w : World) (k : Fin 4) :
    SlotStep k w (waveOutPrepareHeader mr w k) ∧
    (waveOutPrepareHeader mr w k).heap = w.heap ∧
    (waveOutPrepareHeader mr w k).calls =
      w.calls ++ [Call.waveOutPrepareHeader k (w.self.bufferar k).header] ∧
    ((waveOutPrepareHeader mr w k).self.bufferar k).header.lpData =
      (w.self.bufferar k).header.lpData ∧
    ((waveOutPrepareHeader mr w k).self.bufferar k).header.dwBufferLength =
      (w.self.bufferar k).header.dwBufferLength ∧
    ((waveOutPrepareHeader mr w k).self.bufferar k).buffersize = (w.self.bufferar k).buffersize ∧
    ((waveOutPrepareHeader mr w k).self.bufferar k).ready = (w.self.bufferar k).ready ∧
    (mr = MMSYSERR_NOERROR → isPrepared ((waveOutPrepareHeader mr w k).self.bufferar k) = true ∧
      (waveOutPrepareHeader mr w k).regs = w.regs + 1) ∧
    (mr ≠ MMSYSERR_NOERROR →
      (waveOutPrepareHeader mr w k).self.bufferar k = w.self.bufferar k ∧
      (waveOutPrepareHeader mr w k).regs = w.regs) := by
  by_cases hmr : mr = MMSYSERR_NOERROR
  · have hs := setBuffer_spec (w.log (Call.waveOutPrepareHeader k (w.self.bufferar k).header)) k
      { w.self.bufferar k with header := { (w.self.bufferar k).header with
          dwFlags := (w.self.bufferar k).header.dwFlags ||| WHDR_PREPARED } }
    have e : waveOutPrepareHeader mr w k =
        { (w.log (Call.waveOutPrepareHeader k (w.self.bufferar k).header)).setBuffer k
            { w.self.bufferar k with header := { (w.self.bufferar k).header with
              dwFlags := (w.self.bufferar k).header.dwFlags ||| WHDR_PREPARED } }
          with regs := w.regs + 1 } := by
      simp [waveOutPrepareHeader, hmr, World.log]
    rw [e]
    refine ⟨hs.1, rfl, rfl, ?_, ?_, ?_, ?_, ?_, fun h => absurd hmr h⟩
    · simp [World.setBuffer, World.log]
    · simp [World.setBuffer, World.log]
    · simp [World.setBuffer, World.log]
    · simp [World.setBuffer, World.log]
    · intro _
      refine ⟨?_, rfl⟩
      simp [World.setBuffer, World.log, isPrepared, WHDR_PREPARED, or_and_two]
  · have e : waveOutPrepareHeader mr w k =
        w.log (Call.waveOutPrepareHeader k (w.self.bufferar k).header) := by
      simp [waveOutPrepareHeader, hmr]
    rw [e]
    exact ⟨SlotStep.rfl k _, rfl, rfl, rfl, rfl, rfl, rfl, fun h => absurd h hmr,
      fun _ => ⟨rfl, rfl⟩⟩

/-- The C `unprepare` on slot `k`: it reports busy exactly when the header is
prepared and the driver answers `WAVERR_STILLPLAYING`; it calls the driver
exactly when the header is prepared; data pointer, capacity and event are
untouched. -/
theorem unprepare_spec (mr : Int) (w : World) (k : Fin 4) :
    SlotStep k w (unprepare mr w k).2 ∧ (unprepare mr w k).2.heap = w.heap ∧
    ((unprepare mr w k).2.self.bufferar k).header.lpData = (w.self.bufferar k).header.lpData ∧
    ((unprepare mr w k).2.self.bufferar k).header.dwBufferLength =
      (w.self.bufferar k).header.dwBufferLength ∧
    ((unprepare mr w k).2.self.bufferar k).buffersize = (w.self.bufferar k).buffersize ∧
    ((unprepare mr w k).2.self.bufferar k).ready = (w.self.bufferar k).ready ∧
    ((unprepare mr w k).1 = true ↔
      (isPrepared (w.self.bufferar k) = true ∧ mr = WAVERR_STILLPLAYING)) ∧
    (mr ≠ MMSYSERR_NOERROR → (unprepare mr w k).2.self.bufferar k = w.self.bufferar k ∧
      (unprepare mr w k).2.regs = w.regs) ∧
    (mr = MMSYSERR_NOERROR → isPrepared ((unprepare mr w k).2.self.bufferar k) = false) ∧
    (unprepare mr w k).2.calls = w.calls ++
      (if isPrepared (w.self.bufferar k) = true
        then [Call.waveOutUnprepareHeader k (w.self.bufferar k).header] else []) := by
  cases hp : isPrepared (w.self.bufferar k) with
  | true =>
    obtain ⟨a, b, c, d, e, f, g, h1, h2⟩ := waveOutUnprepareHeader_spec mr w k
    have e2 : unprepare mr w k =
        (decide (mr = WAVERR_STILLPLAYING), waveOutUnprepareHeader mr w k) := by
      simp [unprepare, hp]
    rw [e2]
    exact ⟨a, b, d, e, f, g, by simp, h2, fun h => (h1 h).1, by simpa using c⟩
  | false =>
    have e2 : unprepare mr w k = (false, w) := by simp [unprepare, hp]
    rw [e2]
    exact ⟨SlotStep.rfl k w, rfl, rfl, rfl, rfl, rfl, by simp, fun _ => ⟨rfl, rfl⟩,
      fun _ => hp, by simp⟩

/-- What `memcpy` does when it is defined. -/
theorem memcpy_spec (h h1 : Heap) (p : Option Nat) (data : List Nat) (n : Nat)
    (hm : h.memcpy p data n = some h1) :
    ∃ a region, p = some a ∧ h.blocks a = some region ∧ n ≤ region.length ∧ n ≤ data.length ∧
      h1.next = h.next ∧
      h1.blocks = Function.update h.blocks a (some (data.take n ++ region.drop n)) := by
  unfold Heap.memcpy at hm
  split at hm
  · cases hm
  · rename_i a
    split at hm
    · cases hm
    · rename_i region hb
      split at hm
      · rename_i hle
        injection hm with hm
        subst hm
        exact ⟨a, region, rfl, hb, hle.1, hle.2, rfl, rfl⟩
      · cases hm

/-- The copy `memcpy` is defined on a live block that is large enough. -/
theorem memcpy_returns (h : Heap) (a : Nat) (region data : List Nat) (n : Nat)
    (hb : h.blocks a = some region) (h1 : n ≤ region.length) (h2 : n ≤ data.length) :
    ∃ h1, h.memcpy (some a) data n = some h1 := by
  unfold Heap.memcpy
  simp only
  split
  · rename_i hnone
    rw [hb] at hnone
    cases hnone
  · rename_i region2 hb2
    rw [hb] at hb2
    injection hb2 with hb2
    subst hb2
    simp [h1, h2]

/-- The successful allocation step on slot `k`. -/
theorem mallocData_spec (w : World) (k : Fin 4) (bytes : Nat) :
    SlotStep k w (mallocData w k bytes) ∧
    (mallocData w k bytes).heap.next = w.heap.next + 1 ∧
    (mallocData w k bytes).heap.blocks =
      Function.update w.heap.blocks w.heap.next (some (List.replicate bytes 0)) ∧
    (mallocData w k bytes).regs = w.regs ∧ (mallocData w k bytes).calls = w.calls ∧
    (mallocData w k bytes).self.bufferar k =
      { w.self.bufferar k with
        buffersize := bytes,
        header := { (w.self.bufferar k).header with lpData := some w.heap.next, dwFlags := 0 } } := by
  refine ⟨⟨rfl, rfl, rfl, rfl, rfl, ?_⟩, rfl, rfl, rfl, rfl, ?_⟩
  · intro j hj
    simp [mallocData, World.setBuffer, Function.update_noteq hj]
  · simp [mallocData, World.setBuffer, Heap.malloc]

/-- The failed allocation step on slot `k`. -/
theorem mallocFailed_spec (w : World) (k : Fin 4) :
    SlotStep k w (mallocFailed w k) ∧ (mallocFailed w k).heap = w.heap ∧
    (mallocFailed w k).regs = w.regs ∧ (mallocFailed w k).calls = w.calls ∧
    (mallocFailed w k).self.bufferar k =
      { w.self.bufferar k with
        buffersize := 0, header := { (w.self.bufferar k).header with lpData := none } } := by
  refine ⟨⟨rfl, rfl, rfl, rfl, rfl, ?_⟩, rfl, rfl, rfl, ?_⟩
  · intro j hj
    simp [mallocFailed, World.setBuffer, Function.update_noteq hj]
  · simp [mallocFailed, World.setBuffer]

/-- What filling slot `k` does when it is defined: the data pointer refers to a
live block of at least `bytes` bytes, whose first `bytes` bytes are overwritten
with the first `bytes` bytes of `data`; the event is lowered and the length
field set. -/
theorem fill_spec (w w1 : World) (k : Fin 4) (data : List Nat) (bytes : Nat)
    (h : fill w k data bytes = some w1) :
    ∃ p region, (w.self.bufferar k).header.lpData = some p ∧ w.heap.blocks p = some region ∧
      bytes ≤ region.length ∧ bytes ≤ data.length ∧
      SlotStep k w w1 ∧ w1.heap.next = w.heap.next ∧
      w1.heap.blocks = Function.update w.heap.blocks p (some (data.take bytes ++ region.drop bytes)) ∧
      w1.regs = w.regs ∧ w1.calls = w.calls ∧
      w1.self.bufferar k =
        { w.self.bufferar k with
          ready := { (w.self.bufferar k).ready with signaled := false },
          header := { (w.self.bufferar k).header with dwBufferLength := toDWORD bytes } } := by
  unfold fill at h
  obtain ⟨h1, hm, hw⟩ := Option.map_eq_some'.mp h
  obtain ⟨a, region, hp, hb, hl1, hl2, hnext, hblocks⟩ := memcpy_spec _ _ _ _ _ hm
  subst hw
  refine ⟨a, region, hp, hb, hl1, hl2, ⟨rfl, rfl, rfl, rfl, rfl, ?_⟩, hnext, hblocks, rfl, rfl, ?_⟩
  · intro j hj
    simp [World.setBuffer, Function.update_noteq hj]
  · simp [World.setBuffer]

/-- Filling slot `k` is defined when its block is live and large enough and
the data has `bytes` bytes. -/
theorem fill_returns (w : World) (k : Fin 4) (data : List Nat) (bytes p : Nat)
    (region : List Nat) (hp : (w.self.bufferar k).header.lpData = some p)
    (hb : w.heap.blocks p = some region) (h1 : bytes ≤ region.length)
    (h2 : bytes ≤ data.length) : ∃ w1, fill w k data bytes = some w1 := by
  obtain ⟨hh, hm⟩ := memcpy_returns w.heap p region data bytes hb h1 h2
  unfold fill
  simp only []
  rw [hp, hm]
  exact ⟨_, rfl⟩

/-- What the tail of a write does when it returns: the buffer was filled, the
hand-off call was made on the filled header of slot `k`, and the status is the
driver's answer, or `S_OK` when that answer is `MMSYSERR_NOERROR`. -/
theorem submit_spec (env : WriteEnv) (w w2 : World) (k : Fin 4) (data : List Nat) (bytes : Nat)
    (r : Int) (h : submit env w k data bytes = Outcome.returns r w2) :
    ∃ w1, fill w k data bytes = some w1 ∧
      w2 = w1.log (Call.waveOutWrite k (w1.self.bufferar k).header) ∧
      (env.write ≠ MMSYSERR_NOERROR → r = env.write) ∧
      (env.write = MMSYSERR_NOERROR → r = S_OK) := by
  unfold submit at h
  cases hf : fill w k data bytes with
  | none => simp [hf] at h
  | some w1 =>
    simp only [hf] at h
    refine ⟨w1, rfl, ?_⟩
    by_cases hw : env.write = MMSYSERR_NOERROR
    · simp only [hw, ne_eq, not_true_eq_false, if_false] at h
      injection h with h1 h2
      exact ⟨h2.symm, fun hne => absurd hw hne, fun _ => h1.symm⟩
    · simp only [ne_eq, hw, not_false_eq_true, if_true] at h
      injection h with h1 h2
      exact ⟨h2.symm, fun _ => h1.symm, fun he => absurd he hw⟩

/-- The tail of a write in terms of the state before it: the data pointer of
slot `k` refers to a live block of at least `bytes` bytes, the block receives
the data, the event is lowered, the length field is set and the one call
made is the hand-off of that header. -/
theorem submit_cases (env : WriteEnv) (w w2 : World) (k : Fin 4) (data : List Nat) (bytes : Nat)
    (r : Int) (h : submit env w k data bytes = Outcome.returns r w2) :
    ∃ p region, (w.self.bufferar k).header.lpData = some p ∧ w.heap.blocks p = some region ∧
      bytes ≤ region.length ∧ bytes ≤ data.length ∧
      SlotStep k w w2 ∧ w2.heap.next = w.heap.next ∧
      w2.heap.blocks = Function.update w.heap.blocks p (some (data.take bytes ++ region.drop bytes)) ∧
      w2.regs = w.regs ∧
      w2.self.bufferar k =
        { w.self.bufferar k with
          ready := { (w.self.bufferar k).ready with signaled := false },
          header := { (w.self.bufferar k).header with dwBufferLength := toDWORD bytes } } ∧
      w2.calls = w.calls ++ [Call.waveOutWrite k
        { (w.self.bufferar k).header with dwBufferLength := toDWORD bytes }] ∧
      (env.write ≠ MMSYSERR_NOERROR → r = env.write) ∧
      (env.write = MMSYSERR_NOERROR → r = S_OK) := by
  obtain ⟨w1, hf, hw2, hr1, hr2⟩ := submit_spec env w w2 k data bytes r h
  obtain ⟨p, region, hp, hb, hl1, hl2, hstep, hnext, hblocks, hregs, hcalls, hslot⟩ :=
    fill_spec w w1 k data bytes hf
  subst hw2
  refine ⟨p, region, hp, hb, hl1, hl2, hstep, hnext, hblocks, hregs, hslot, ?_, hr1, hr2⟩
  simp only [World.log, hcalls, hslot]

/-- The blocks of the heap after the statement that frees the data of a slot
whose data pointer is `lp`. -/
theorem freeData_blocks (w w1 : World) (k : Fin 4) (h : freeData w k = some w1) :
    w1.heap.blocks = (match (w.self.bufferar k).header.lpData with
      | some p => Function.update w.heap.blocks p none
      | none => w.heap.blocks) ∧
    (∀ p, (w.self.bufferar k).header.lpData = some p → w.heap.blocks p ≠ none) := by
  obtain ⟨-, -, -, -, hn, hs⟩ := freeData_spec w w1 k h
  cases hp : (w.self.bufferar k).header.lpData with
  | none => exact ⟨by rw [hn hp], fun p h2 => by simp at h2⟩
  | some p =>
    refine ⟨(hs p hp).2, ?_⟩
    intro q hq
    simp only [Option.some.injEq] at hq
    subst hq
    exact (hs _ hp).1

/-- The growth branch, path by path.  Whenever it returns it is a step on slot
`k`, and one of four things happened: the deregistration was answered busy and
the local `mr` is returned; the allocation failed and `errno` is returned; the
registration was rejected and its status is returned; or the new block was
registered, filled and handed to the driver. -/
theorem grow_cases (env : WriteEnv) (w w1 : World) (k : Fin 4) (data : List Nat) (bytes : Nat)
    (r : Int) (h : grow env w k data bytes = Outcome.returns r w1) :
    SlotStep k w w1 ∧
    ((isPrepared (w.self.bufferar k) = true ∧ env.unprepare = WAVERR_STILLPLAYING ∧
        r = env.mr0 ∧ w1.self.bufferar k = w.self.bufferar k ∧ w1.heap = w.heap ∧
        w1.regs = w.regs ∧
        w1.calls = w.calls ++ [Call.waveOutUnprepareHeader k (w.self.bufferar k).header]) ∨
     (¬ (isPrepared (w.self.bufferar k) = true ∧ env.unprepare = WAVERR_STILLPLAYING) ∧
        (∀ p, (w.self.bufferar k).header.lpData = some p → w.heap.blocks p ≠ none) ∧
        ((env.mallocOk = false ∧ r = env.errno ∧
            (w1.self.bufferar k).header.lpData = none ∧ (w1.self.bufferar k).buffersize = 0 ∧
            (w1.self.bufferar k).ready = (w.self.bufferar k).ready ∧
            w1.heap.next = w.heap.next ∧
            w1.heap.blocks = (match (w.self.bufferar k).header.lpData with
              | some p => Function.update w.heap.blocks p none
              | none => w.heap.blocks) ∧
            w1.calls = w.calls ++
              (if isPrepared (w.self.bufferar k) = true
                then [Call.waveOutUnprepareHeader k (w.self.bufferar k).header] else [])) ∨
         (env.mallocOk = true ∧ env.prepare ≠ MMSYSERR_NOERROR ∧ r = env.prepare ∧
            (w1.self.bufferar k).header.lpData = some w.heap.next ∧
            (w1.self.bufferar k).header.dwFlags = 0 ∧
            (w1.self.bufferar k).buffersize = bytes ∧
            (w1.self.bufferar k).ready = (w.self.bufferar k).ready ∧
            w1.heap.next = w.heap.next + 1 ∧
            w1.heap.blocks = Function.update
              (match (w.self.bufferar k).header.lpData with
                | some p => Function.update w.heap.blocks p none
                | none => w.heap.blocks)
              w.heap.next (some (List.replicate bytes 0)) ∧
            w1.calls = w.calls ++
              (if isPrepared (w.self.bufferar k) = true
                then [Call.waveOutUnprepareHeader k (w.self.bufferar k).header] else []) ++
              [Call.waveOutPrepareHeader k
                { (w.self.bufferar k).header with lpData := some w.heap.next, dwFlags := 0 }]) ∨
         (env.mallocOk = true ∧ env.prepare = MMSYSERR_NOERROR ∧ bytes ≤ data.length ∧
            (env.write ≠ MMSYSERR_NOERROR → r = env.write) ∧
            (env.write = MMSYSERR_NOERROR → r = S_OK) ∧
            (w1.self.bufferar k).header.lpData = some w.heap.next ∧
            isPrepared (w1.self.bufferar k) = true ∧
            (w1.self.bufferar k).header.dwBufferLength = toDWORD bytes ∧
            (w1.self.bufferar k).buffersize = bytes ∧
            (w1.self.bufferar k).ready =
              { (w.self.bufferar k).ready with signaled := false } ∧
            w1.heap.next = w.heap.next + 1 ∧
            w1.heap.blocks = Function.update
              (match (w.self.bufferar k).header.lpData with
                | some p => Function.update w.heap.blocks p none
                | none => w.heap.blocks)
              w.heap.next (some (data.take bytes ++ (List.replicate bytes 0).drop bytes)) ∧
            w1.calls = w.calls ++
              (if isPrepared (w.self.bufferar k) = true
                then [Call.waveOutUnprepareHeader k (w.self.bufferar k).header] else []) ++
              [Call.waveOutPrepareHeader k
                { (w.self.bufferar k).header with lpData := some w.heap.next, dwFlags := 0 },
               Call.waveOutWrite k (w1.self.bufferar k).header])))) := by
  obtain ⟨ustep, uheap, ulp, ulen, usize, uready, ubusy, uerr, -, ucalls⟩ :=
    unprepare_spec env.unprepare w k
  unfold grow at h
  cases hu : unprepare env.unprepare w k with
  | mk busy wu =>
    rw [hu] at ustep uheap ulp ulen usize uready ubusy uerr ucalls h
    simp only at ustep uheap ulp ulen usize uready ubusy uerr ucalls
    cases busy with
    | true =>
      simp only at h
      injection h with h1 h2
      subst h2
      have hb := ubusy.mp rfl
      have hne : env.unprepare ≠ MMSYSERR_NOERROR := by
        rw [hb.2]; decide
      refine ⟨ustep, Or.inl ⟨hb.1, hb.2, h1.symm, (uerr hne).1, uheap, (uerr hne).2, ?_⟩⟩
      rw [ucalls, hb.1]; simp
    | false =>
      simp only at h
      have hnb : ¬ (isPrepared (w.self.bufferar k) = true ∧ env.unprepare = WAVERR_STILLPLAYING) :=
        fun hb => Bool.false_ne_true (ubusy.mpr hb)
      cases hf : freeData wu k with
      | none => simp [hf] at h
      | some wf =>
        simp only [hf] at h
        obtain ⟨fself, fregs, fcalls, fnext, -, -⟩ := freeData_spec wu wf k hf
        obtain ⟨fblocks, flive⟩ := freeData_blocks wu wf k hf
        rw [ulp, uheap] at fblocks
        rw [uheap] at fnext
        have hlive : ∀ p, (w.self.bufferar k).header.lpData = some p → w.heap.blocks p ≠ none := by
          intro p hp
          have := flive p (by rw [ulp]; exact hp)
          rw [uheap] at this
          exact this
        have fstep : SlotStep k w wf := by
          obtain ⟨a, b, c, d, e, f⟩ := ustep
          rw [← fself] at a b c d e f
          exact ⟨a, b, c, d, e, f⟩
        have fslot : wf.self.bufferar k = wu.self.bufferar k := by rw [fself]
        cases hm : env.mallocOk with
        | false =>
          simp only [hm, Bool.false_eq_true, if_false] at h
          injection h with h1 h2
          subst h2
          obtain ⟨mstep, mheap, mregs, mcalls, mslot⟩ := mallocFailed_spec wf k
          refine ⟨fstep.trans mstep, Or.inr ⟨hnb, hlive, Or.inl ⟨rfl, h1.symm, ?_, ?_, ?_, ?_, ?_, ?_⟩⟩⟩
          · rw [mslot]
          · rw [mslot]
          · rw [mslot, fslot]; exact uready
          · rw [mheap, fnext]
          · rw [mheap, fblocks]
          · rw [mcalls, fcalls, ucalls]
        | true =>
          simp only [hm, if_true] at h
          obtain ⟨mstep, mnext, mblocks, mregs, mcalls, mslot⟩ := mallocData_spec wf k bytes
          obtain ⟨pstep, pheap, pcalls, plp, plen, psize, pready, pok, perr⟩ :=
            waveOutPrepareHeader_spec env.prepare (mallocData wf k bytes) k
          have hnextf : wf.heap.next = w.heap.next := fnext
          have hdr : ((mallocData wf k bytes).self.bufferar k).header =
              { (w.self.bufferar k).header with lpData := some w.heap.next, dwFlags := 0 } := by
            rw [mslot, fslot, hnextf]
            simp only [WAVEHDR.mk.injEq, true_and, and_true]
            exact ulen
          have hcallsP : (waveOutPrepareHeader env.prepare (mallocData wf k bytes) k).calls =
              w.calls ++
              (if isPrepared (w.self.bufferar k) = true
                then [Call.waveOutUnprepareHeader k (w.self.bufferar k).header] else []) ++
              [Call.waveOutPrepareHeader k
                { (w.self.bufferar k).header with lpData := some w.heap.next, dwFlags := 0 }] := by
            rw [pcalls, mcalls, fcalls, ucalls, hdr]
          have hblocksP : (waveOutPrepareHeader env.prepare (mallocData wf k bytes) k).heap.blocks =
              Function.update
                (match (w.self.bufferar k).header.lpData with
                  | some p => Function.update w.heap.blocks p none
                  | none => w.heap.blocks)
                w.heap.next (some (List.replicate bytes 0)) := by
            rw [pheap, mblocks, fblocks, hnextf]
          have hnextP : (waveOutPrepareHeader env.prepare (mallocData wf k bytes) k).heap.next =
              w.heap.next + 1 := by
            rw [pheap, mnext, hnextf]
          by_cases hpz : env.prepare = MMSYSERR_NOERROR
          · simp only [hpz, ne_eq, not_true_eq_false, if_false] at h
            rw [hpz] at pstep pheap pcalls plp plen psize pready pok hcallsP hblocksP hnextP
            obtain ⟨p, region, sp, sb, sl1, sl2, sstep, snext, sblocks, sregs, sslot, scalls,
              sr1, sr2⟩ := submit_cases env _ w1 k data bytes r h
            have hpnext : p = w.heap.next := by
              rw [plp, mslot] at sp
              simp only [Option.some.injEq] at sp
              rw [← sp, hnextf]
            subst hpnext
            have hregion : region = List.replicate bytes 0 := by
              rw [hblocksP, Function.update_same] at sb
              injection sb with sb
              exact sb.symm
            subst hregion
            refine ⟨((fstep.trans mstep).trans pstep).trans sstep,
              Or.inr ⟨hnb, hlive, Or.inr (Or.inr ⟨rfl, hpz, sl2, sr1, sr2, ?_, ?_, ?_, ?_, ?_, ?_, ?_, ?_⟩)⟩⟩
            · rw [sslot]; exact sp
            · rw [sslot]
              have := (pok rfl).1
              simp only [isPrepared] at this ⊢
              exact this
            · rw [sslot]
            · rw [sslot, psize, mslot]
            · rw [sslot, pready, mslot, fslot, uready]
            · rw [snext, hnextP]
            · rw [sblocks, hblocksP]
              simp
            · rw [scalls, hcallsP, sslot]
              simp
          · simp only [ne_eq, hpz, not_false_eq_true, if_true] at h
            injection h with h1 h2
            subst h2
            refine ⟨(fstep.trans mstep).trans pstep,
              Or.inr ⟨hnb, hlive, Or.inr (Or.inl ⟨rfl, hpz, h1.symm, ?_, ?_, ?_, ?_, hnextP, hblocksP, hcallsP⟩)⟩⟩
            · rw [plp, mslot, hnextf]
            · rw [(perr hpz).1, mslot]
            · rw [psize, mslot]
            · rw [pready, mslot, fslot, uready]

/-! ### A whole write -/

/-- A non-empty write that returns found the selected slot signalled and ran
either the growth branch or the plain tail on the world with the incremented
counter. -/
theorem write_unfold (env : WriteEnv) (w w1 : World) (data : List Nat) (bytes : Nat) (r : Int)
    (hb : bytes ≠ 0) (h : waveout_object_write env w data bytes = Outcome.returns r w1) :
    (w.self.bufferar (slotOf (InterlockedIncrement w.self.bufferindex))).ready.signaled = true ∧
    (((w.self.bufferar (slotOf (InterlockedIncrement w.self.bufferindex))).buffersize < bytes ∧
        grow env { w with self := { w.self with
            bufferindex := InterlockedIncrement w.self.bufferindex } }
          (slotOf (InterlockedIncrement w.self.bufferindex)) data bytes = Outcome.returns r w1) ∨
     (bytes ≤ (w.self.bufferar (slotOf (InterlockedIncrement w.self.bufferindex))).buffersize ∧
        submit env { w with self := { w.self with
            bufferindex := InterlockedIncrement w.self.bufferindex } }
          (slotOf (InterlockedIncrement w.self.bufferindex)) data bytes = Outcome.returns r w1)) := by
  unfold waveout_object_write at h
  simp only [hb, ne_eq, not_false_eq_true, if_true] at h
  cases hs : (w.self.bufferar (slotOf (InterlockedIncrement w.self.bufferindex))).ready.signaled with
  | false => simp [hs] at h
  | true =>
    simp only [hs, if_true] at h
    refine ⟨rfl, ?_⟩
    by_cases hlt : (w.self.bufferar (slotOf (InterlockedIncrement w.self.bufferindex))).buffersize < bytes
    · simp only [hlt, if_true] at h
      exact Or.inl ⟨hlt, h⟩
    · simp only [hlt, if_false] at h
      exact Or.inr ⟨by omega, h⟩

/-- The calls one write adds to the log are all made on the header of the
selected slot; everything outside that slot except the counter is unchanged. -/
theorem write_frame (env : WriteEnv) (w w1 : World) (data : List Nat) (bytes : Nat) (r : Int)
    (hb : bytes ≠ 0) (h : waveout_object_write env w data bytes = Outcome.returns r w1) :
    w1.self.bufferindex = InterlockedIncrement w.self.bufferindex ∧
    (w.self.bufferar (slotOf (InterlockedIncrement w.self.bufferindex))).ready.signaled = true ∧
    w1.self.waveout = w.self.waveout ∧ w1.self.format = w.self.format ∧
    (∀ j, j ≠ slotOf (InterlockedIncrement w.self.bufferindex) →
      w1.self.bufferar j = w.self.bufferar j) ∧
    ∃ added, w1.calls = w.calls ++ added ∧
      ∀ c ∈ added, c.slot = some (slotOf (InterlockedIncrement w.self.bufferindex)) := by
  obtain ⟨hs, hpath⟩ := write_unfold env w w1 data bytes r hb h
  rcases hpath with ⟨-, hg⟩ | ⟨-, hsub⟩
  · obtain ⟨⟨a, b, -, -, e, f⟩, hc⟩ := grow_cases env _ w1 _ data bytes r hg
    refine ⟨e, hs, a, b, f, ?_⟩
    rcases hc with ⟨-, -, -, -, -, -, hcalls⟩ | ⟨-, -, hc⟩
    · exact ⟨_, hcalls, by simp [Call.slot]⟩
    · rcases hc with ⟨-, -, -, -, -, -, -, hcalls⟩ | ⟨-, -, -, -, -, -, -, -, -, hcalls⟩ |
        ⟨-, -, -, -, -, -, -, -, -, -, -, -, hcalls⟩
      · refine ⟨_, hcalls, ?_⟩
        intro c hc
        split at hc <;> simp at hc
        subst hc; rfl
      · rw [List.append_assoc] at hcalls
        refine ⟨_, hcalls, ?_⟩
        intro c hc
        rcases List.mem_append.mp hc with hc | hc
        · split at hc <;> simp at hc
          subst hc; rfl
        · simp at hc; subst hc; rfl
      · rw [List.append_assoc] at hcalls
        refine ⟨_, hcalls, ?_⟩
        intro c hc
        rcases List.mem_append.mp hc with hc | hc
        · split at hc <;> simp at hc
          subst hc; rfl
        · simp at hc
          rcases hc with hc | hc <;> (subst hc; rfl)
  · obtain ⟨p, region, -, -, -, -, ⟨a, b, -, -, e, f⟩, -, -, -, -, hcalls, -, -⟩ :=
      submit_cases env _ w1 _ data bytes r hsub
    exact ⟨e, hs, a, b, f, _, hcalls, by simp [Call.slot]⟩

/-! ### The memory invariant -/

/-- A live block lies below the next fresh address. -/
theorem Heap.live_lt (h : Heap) (p : Nat) (hb : h.blocks p ≠ none) : p < h.next := by
  by_contra hge
  exact hb (h.fresh p (by omega))

/-- A step on slot `k` keeps the invariant, and the data of the other slots,
when slot `k` agrees with the heap afterwards, the blocks other than the old
block of slot `k` keep their content, and the data pointer of slot `k` is the
old one or a fresh address. -/
theorem inv_step (k : Fin 4) (w w1 : World) (hinv : Inv w)
    (hstep : ∀ j, j ≠ k → w1.self.bufferar j = w.self.bufferar j)
    (hk : SlotOk w1 k)
    (hblocks : ∀ q, q < w.heap.next →
      (∀ p, (w.self.bufferar k).header.lpData = some p → q ≠ p) →
      w1.heap.blocks q = w.heap.blocks q)
    (hptr : ∀ p, (w1.self.bufferar k).header.lpData = some p →
      (w.self.bufferar k).header.lpData = some p ∨ w.heap.next ≤ p) :
    Inv w1 ∧ ∀ j, j ≠ k → dataOf w1 j = dataOf w j := by
  obtain ⟨hok, hdis⟩ := hinv
  -- a pointer held by another slot is live, below `next`, and not the block of slot `k`
  have hother : ∀ j, j ≠ k → ∀ q, (w.self.bufferar j).header.lpData = some q →
      q < w.heap.next ∧ (∀ p, (w.self.bufferar k).header.lpData = some p → q ≠ p) ∧
      w1.heap.blocks q = w.heap.blocks q := by
    intro j hj q hq
    have hj_ok := hok j
    unfold SlotOk at hj_ok
    rw [hq] at hj_ok
    obtain ⟨region, hreg, -⟩ := hj_ok
    have hlt : q < w.heap.next := w.heap.live_lt q (by rw [hreg]; exact Option.some_ne_none _)
    have hne : ∀ p, (w.self.bufferar k).header.lpData = some p → q ≠ p := by
      intro p hp hqp
      subst hqp
      exact hdis j k q hj hq hp
    exact ⟨hlt, hne, hblocks q hlt hne⟩
  refine ⟨⟨?_, ?_⟩, ?_⟩
  · intro i
    by_cases hik : i = k
    · subst hik; exact hk
    · have hi_ok := hok i
      unfold SlotOk at hi_ok ⊢
      rw [hstep i hik]
      cases hq : (w.self.bufferar i).header.lpData with
      | none => rw [hq] at hi_ok; exact hi_ok
      | some q =>
        rw [hq] at hi_ok
        simp only
        rw [(hother i hik q hq).2.2]
        exact hi_ok
  · intro i j p hij hi hj
    by_cases hik : i = k
    · subst hik
      have hjk : j ≠ i := fun e => hij e.symm
      rw [hstep j hjk] at hj
      rcases hptr p hi with hold | hfresh
      · exact hdis i j p hij hold hj
      · have := (hother j hjk p hj).1
        omega
    · rw [hstep i hik] at hi
      by_cases hjk : j = k
      · subst hjk
        rcases hptr p hj with hold | hfresh
        · exact hdis i j p hij hi hold
        · have := (hother i hik p hi).1
          omega
      · rw [hstep j hjk] at hj
        exact hdis i j p hij hi hj
  · intro j hj
    unfold dataOf
    rw [hstep j hj]
    cases hq : (w.self.bufferar j).header.lpData with
    | none => rfl
    | some q => exact (hother j hj q hq).2.2

/-- The invariant only reads the data pointers, the capacities and the blocks. -/
theorem inv_congr (w w1 : World)
    (hslots : ∀ i, (w1.self.bufferar i).header.lpData = (w.self.bufferar i).header.lpData ∧
      (w1.self.bufferar i).buffersize = (w.self.bufferar i).buffersize)
    (hheap : w1.heap.blocks = w.heap.blocks) (hinv : Inv w) : Inv w1 := by
  obtain ⟨hok, hdis⟩ := hinv
  refine ⟨?_, ?_⟩
  · intro i
    have := hok i
    unfold SlotOk at this ⊢
    rw [(hslots i).1, (hslots i).2, hheap]
    exact this
  · intro i j p hij hi hj
    rw [(hslots i).1] at hi
    rw [(hslots j).1] at hj
    exact hdis i j p hij hi hj

/-- Removing the block a pointer refers to leaves the other addresses alone. -/
theorem blocks_after_free (blocks : Nat → Option (List Nat)) (lp : Option Nat) (q : Nat)
    (hq : ∀ p, lp = some p → q ≠ p) :
    (match lp with
      | some p => Function.update blocks p none
      | none => blocks) q = blocks q := by
  cases lp with
  | none => rfl
  | some p => exact Function.update_noteq (hq p rfl) _ _

/-- A non-empty write that returns keeps the memory invariant and the data of
the slots it did not select, whatever its status. -/
theorem write_inv (env : WriteEnv) (w w1 : World) (data : List Nat) (bytes : Nat) (r : Int)
    (hb : bytes ≠ 0) (hinv : Inv w)
    (h : waveout_object_write env w data bytes = Outcome.returns r w1) :
    Inv w1 ∧ ∀ j, j ≠ slotOf (InterlockedIncrement w.self.bufferindex) →
      dataOf w1 j = dataOf w j := by
  obtain ⟨-, hpath⟩ := write_unfold env w w1 data bytes r hb h
  have hinvi : Inv ({ w with self := { w.self with
      bufferindex := InterlockedIncrement w.self.bufferindex } } : World) := hinv
  have hdata : ∀ (wx : World) (j : Fin 4),
      dataOf wx j = dataOf ({ w with self := { w.self with
        bufferindex := InterlockedIncrement w.self.bufferindex } } : World) j →
      dataOf wx j = dataOf w j := fun _ _ hx => hx
  rcases hpath with ⟨-, hg⟩ | ⟨-, hsub⟩
  · obtain ⟨⟨-, -, -, -, -, f⟩, hc⟩ := grow_cases env _ w1 _ data bytes r hg
    rcases hc with ⟨-, -, -, hslot, hheap, -, -⟩ | ⟨-, hlive, hc⟩
    · have hblocks : w1.heap.blocks = w.heap.blocks := by rw [hheap]
      refine ⟨inv_congr _ w1 ?_ hblocks hinvi, ?_⟩
      · intro i
        by_cases hik : i = slotOf (InterlockedIncrement w.self.bufferindex)
        · subst hik; rw [hslot]; exact ⟨rfl, rfl⟩
        · rw [f i hik]; exact ⟨rfl, rfl⟩
      · intro j hj
        unfold dataOf
        rw [f j hj, hblocks]
    · rcases hc with ⟨-, -, hlp, hsize, -, -, hblocks, -⟩ |
        ⟨-, -, -, hlp, -, hsize, -, -, hblocks, -⟩ |
        ⟨-, -, hlen, -, -, hlp, -, -, hsize, -, -, hblocks, -⟩
      · refine inv_step _ _ w1 hinvi f ?_ ?_ ?_
        · unfold SlotOk; rw [hlp]; exact hsize
        · intro q _ hq
          rw [hblocks]
          exact blocks_after_free _ _ q hq
        · intro p hp; rw [hlp] at hp; cases hp
      · refine inv_step _ _ w1 hinvi f ?_ ?_ ?_
        · unfold SlotOk; rw [hlp]
          refine ⟨List.replicate bytes 0, ?_, ?_⟩
          · rw [hblocks]; exact Function.update_same _ _ _
          · rw [hsize]; simp
        · intro q hlt hq
          rw [hblocks, Function.update_noteq (by show q ≠ w.heap.next; omega)]
          exact blocks_after_free _ _ q hq
        · intro p hp
          rw [hlp] at hp
          injection hp with hp
          exact Or.inr (le_of_eq hp)
      · refine inv_step _ _ w1 hinvi f ?_ ?_ ?_
        · unfold SlotOk; rw [hlp]
          refine ⟨data.take bytes ++ (List.replicate bytes 0).drop bytes, ?_, ?_⟩
          · rw [hblocks]; exact Function.update_same _ _ _
          · rw [hsize]; simp; omega
        · intro q hlt hq
          rw [hblocks, Function.update_noteq (by show q ≠ w.heap.next; omega)]
          exact blocks_after_free _ _ q hq
        · intro p hp
          rw [hlp] at hp
          injection hp with hp
          exact Or.inr (le_of_eq hp)
  · obtain ⟨p, region, hp, hreg, hl1, hl2, ⟨-, -, -, -, -, f⟩, -, hblocks, -, hslot, -, -, -⟩ :=
      submit_cases env _ w1 _ data bytes r hsub
    have hk_ok := hinv.1 (slotOf (InterlockedIncrement w.self.bufferindex))
    unfold SlotOk at hk_ok
    have hp2 : (w.self.bufferar (slotOf (InterlockedIncrement w.self.bufferindex))).header.lpData =
        some p := hp
    have hreg2 : w.heap.blocks p = some region := hreg
    rw [hp2] at hk_ok
    obtain ⟨region2, hr2, hsize⟩ := hk_ok
    rw [hreg2] at hr2
    injection hr2 with hr2
    subst hr2
    refine inv_step _ _ w1 hinvi f ?_ ?_ ?_
    · unfold SlotOk
      rw [hslot]
      simp only
      rw [hp2]
      refine ⟨data.take bytes ++ region.drop bytes, ?_, ?_⟩
      · rw [hblocks]; exact Function.update_same _ _ _
      · rw [hsize]; simp; omega
    · intro q _ hq
      rw [hblocks]
      exact Function.update_noteq (hq p hp) _ _
    · intro q hq
      rw [hslot] at hq
      exact Or.inl hq

/-! ### Sessions -/

/-- A write of zero bytes is the identity (for use in the lemmas below). -/
theorem write_zero (env : WriteEnv) (w : World) (data : List Nat) :
    waveout_object_write env w data 0 = Outcome.returns S_OK w := by
  simp [waveout_object_write]

/-- The error path of open returns the error it was given, if it returns. -/
theorem openError_status (env : CloseEnv) (w w1 : World) (err r : Int)
    (h : openError env w err = Outcome.returns r w1) : r = err := by
  unfold openError at h
  split at h
  · injection h with h1 h2; exact h1.symm
  · cases h
  · cases h

/-- A successful open leaves the counter at 0 and every slot as `inibuffer`
makes it; the heap is the one before the call. -/
theorem open_ok_state (env : OpenEnv) (w0 wo : World) (format rate channels : Nat)
    (h : waveout_object_open env w0 format rate channels = Outcome.returns S_OK wo) :
    wo.self.bufferindex = 0 ∧ (∀ i, wo.self.bufferar i = inibuffer (w0.self.bufferar i)) ∧
    wo.heap = w0.heap ∧ wo.regs = w0.regs := by
  unfold waveout_object_open at h
  by_cases hhr : env.hr < 0
  · simp only [hhr, if_true] at h
    have := openError_status _ _ _ _ _ h
    simp only [S_OK] at this
    omega
  · simp only [hhr, if_false] at h
    by_cases hmr : env.mr = MMSYSERR_NOERROR
    · simp only [hmr, ne_eq, not_true_eq_false, if_false] at h
      injection h with h1 h2
      subst h2
      exact ⟨rfl, fun _ => rfl, rfl, rfl⟩
    · simp only [ne_eq, hmr, not_false_eq_true, if_true] at h
      have := openError_status _ _ _ _ _ h
      exact absurd this.symm hmr

/-- A successful open establishes the memory invariant. -/
theorem open_inv (env : OpenEnv) (w0 wo : World) (format rate channels : Nat)
    (h : waveout_object_open env w0 format rate channels = Outcome.returns S_OK wo) : Inv wo := by
  obtain ⟨-, hsl, -, -⟩ := open_ok_state env w0 wo format rate channels h
  refine ⟨?_, ?_⟩
  · intro i
    unfold SlotOk
    rw [hsl i]
    rfl
  · intro i j p _ hi
    rw [hsl i] at hi
    cases hi

/-- Every step that returns keeps the memory invariant. -/
theorem step_inv (w w1 : World) (op : Op) (hinv : Inv w) (h : step w op = some w1) : Inv w1 := by
  cases op with
  | write env data bytes =>
    simp only [step] at h
    split at h
    · rename_i r w2 hw
      injection h with h
      subst h
      by_cases hb : bytes = 0
      · subst hb
        rw [write_zero] at hw
        injection hw with _ hw2
        rw [← hw2]; exact hinv
      · exact (write_inv env w w2 data bytes r hb hinv hw).1
    · cases h
  | drain =>
    simp only [step, waveout_object_drain] at h
    split at h
    · rename_i r w2 hw
      split at hw
      · injection hw with _ hw2
        injection h with h
        rw [← h, ← hw2]; exact hinv
      · cases hw
    · cases h
  | flush =>
    simp only [step, waveout_object_flush] at h
    injection h with h
    subst h
    exact hinv
  | callback m =>
    simp only [step] at h
    injection h with h
    subst h
    refine inv_congr w _ ?_ rfl hinv
    intro i
    have := waveoutcallback_slot w.self m i
    exact ⟨by rw [this.1], this.2.1⟩

/-- Every run keeps the memory invariant. -/
theorem run_inv (ops : List Op) : ∀ (w w1 : World), Inv w → run w ops = some w1 → Inv w1 := by
  induction ops with
  | nil =>
    intro w w1 hinv h
    simp only [run] at h
    injection h with h
    rw [← h]; exact hinv
  | cons op rest ih =>
    intro w w1 hinv h
    simp only [run] at h
    obtain ⟨w2, h2, h3⟩ := Option.bind_eq_some.mp h
    exact ih w2 w1 (step_inv w w2 op hinv h2) h3

/-- An open sink satisfies the memory invariant. -/
theorem OpenSink.inv {w : World} (h : OpenSink w) : Inv w := by
  obtain ⟨env, w0, format, rate, channels, wo, ops, hopen, hrun⟩ := h
  exact run_inv ops wo w (open_inv env w0 wo format rate channels hopen) hrun

/-! ### A write on which every step succeeds -/

/-- The tail of a write returns once the buffer can be filled. -/
theorem submit_returns (env : WriteEnv) (w w1 : World) (k : Fin 4) (data : List Nat) (bytes : Nat)
    (h : fill w k data bytes = some w1) :
    ∃ r w2, submit env w k data bytes = Outcome.returns r w2 := by
  unfold submit
  rw [h]
  simp only
  split
  · exact ⟨_, _, rfl⟩
  · exact ⟨_, _, rfl⟩

/-- The growth branch returns when the old block, if any, is live, the driver
does not answer busy, and the data has `bytes` bytes. -/
theorem grow_returns (env : WriteEnv) (w : World) (k : Fin 4) (data : List Nat) (bytes : Nat)
    (hlive : ∀ p, (w.self.bufferar k).header.lpData = some p → w.heap.blocks p ≠ none)
    (hun : env.unprepare ≠ WAVERR_STILLPLAYING) (hdata : bytes ≤ data.length) :
    ∃ r w1, grow env w k data bytes = Outcome.returns r w1 := by
  obtain ⟨-, uheap, ulp, -, -, -, ubusy, -, -, -⟩ := unprepare_spec env.unprepare w k
  unfold grow
  cases hu : unprepare env.unprepare w k with
  | mk busy wu =>
    rw [hu] at uheap ulp ubusy
    simp only at uheap ulp ubusy
    cases busy with
    | true => exact absurd (ubusy.mp rfl).2 hun
    | false =>
      simp only
      obtain ⟨wf, hf⟩ := freeData_returns wu k (by
        intro p hp
        rw [ulp] at hp
        rw [uheap]
        exact hlive p hp)
      rw [hf]
      simp only
      cases hm : env.mallocOk with
      | false =>
        simp only [Bool.false_eq_true, if_false]
        exact ⟨_, _, rfl⟩
      | true =>
        simp only [if_true]
        by_cases hpz : env.prepare = MMSYSERR_NOERROR
        · simp only [hpz, ne_eq, not_true_eq_false, if_false]
          obtain ⟨-, -, mblocks, -, -, mslot⟩ := mallocData_spec wf k bytes
          obtain ⟨-, pheap, -, plp, -, -, -, -, -⟩ :=
            waveOutPrepareHeader_spec MMSYSERR_NOERROR (mallocData wf k bytes) k
          obtain ⟨w3, h3⟩ := fill_returns (waveOutPrepareHeader MMSYSERR_NOERROR
            (mallocData wf k bytes) k) k data bytes wf.heap.next (List.replicate bytes 0)
            (by rw [plp, mslot])
            (by rw [pheap, mblocks]; exact Function.update_same _ _ _)
            (by simp) hdata
          exact submit_returns env _ w3 k data bytes h3
        · simp only [ne_eq, hpz, not_false_eq_true, if_true]
          exact ⟨_, _, rfl⟩

/-- On a world that satisfies the memory invariant, a non-empty write of
`bytes` bytes of `data` whose selected slot is signalled and whose allocation
and driver calls all succeed returns `S_OK`.  The selected slot ends with
capacity `max old bytes`, length field `bytes` (as a DWORD), and a live block of
the size of the capacity that starts with `data`; the other slots and their
data are unchanged, and the invariant holds again. -/
theorem write_ok (env : WriteEnv) (w : World) (data : List Nat) (bytes : Nat)
    (hinv : Inv w) (hpos : 0 < bytes) (hdata : data.length = bytes)
    (hready : (w.self.bufferar (slotOf (InterlockedIncrement w.self.bufferindex))).ready.signaled
      = true)
    (hun : env.unprepare = MMSYSERR_NOERROR) (hmalloc : env.mallocOk = true)
    (hprep : env.prepare = MMSYSERR_NOERROR) (hwrite : env.write = MMSYSERR_NOERROR) :
    ∃ w1, waveout_object_write env w data bytes = Outcome.returns S_OK w1 ∧
      (w1.self.bufferar (slotOf (InterlockedIncrement w.self.bufferindex))).buffersize =
        max (w.self.bufferar (slotOf (InterlockedIncrement w.self.bufferindex))).buffersize bytes ∧
      (w1.self.bufferar (slotOf (InterlockedIncrement w.self.bufferindex))).header.dwBufferLength =
        toDWORD bytes ∧
      (∃ region, dataOf w1 (slotOf (InterlockedIncrement w.self.bufferindex)) = some region ∧
        region.take bytes = data ∧
        region.length =
          (w1.self.bufferar (slotOf (InterlockedIncrement w.self.bufferindex))).buffersize) ∧
      (∀ j, j ≠ slotOf (InterlockedIncrement w.self.bufferindex) →
        w1.self.bufferar j = w.self.bufferar j ∧ dataOf w1 j = dataOf w j) ∧
      w1.self.bufferindex = InterlockedIncrement w.self.bufferindex ∧
      Inv w1 := by
  have hb : bytes ≠ 0 := by omega
  have hne33 : env.unprepare ≠ WAVERR_STILLPLAYING := by rw [hun]; decide
  have hk_ok := hinv.1 (slotOf (InterlockedIncrement w.self.bufferindex))
  -- the write returns
  have hret : ∃ r w1, waveout_object_write env w data bytes = Outcome.returns r w1 := by
    unfold waveout_object_write
    simp only [hb, ne_eq, not_false_eq_true, if_true, hready]
    by_cases hlt : (w.self.bufferar (slotOf (InterlockedIncrement w.self.bufferindex))).buffersize
        < bytes
    · simp only [hlt, if_true]
      apply grow_returns env _ _ data bytes _ hne33 (by omega)
      intro p hp
      unfold SlotOk at hk_ok
      have hp2 : (w.self.bufferar (slotOf (InterlockedIncrement w.self.bufferindex))).header.lpData
          = some p := hp
      rw [hp2] at hk_ok
      obtain ⟨region, hreg, -⟩ := hk_ok
      show w.heap.blocks p ≠ none
      rw [hreg]; exact Option.some_ne_none _
    · simp only [hlt, if_false]
      unfold SlotOk at hk_ok
      cases hp : (w.self.bufferar (slotOf (InterlockedIncrement w.self.bufferindex))).header.lpData with
      | none =>
        rw [hp] at hk_ok
        simp only at hk_ok
        omega
      | some p =>
        rw [hp] at hk_ok
        obtain ⟨region, hreg, hsize⟩ := hk_ok
        obtain ⟨w1, h1⟩ := fill_returns ({ w with self := { w.self with
            bufferindex := InterlockedIncrement w.self.bufferindex } } : World)
          (slotOf (InterlockedIncrement w.self.bufferindex)) data bytes p region hp hreg
          (by omega) (by omega)
        exact submit_returns env _ w1 _ data bytes h1
  obtain ⟨r, w1, hw⟩ := hret
  obtain ⟨hinv1, hothers⟩ := write_inv env w w1 data bytes r hb hinv hw
  obtain ⟨hidx, -, -, -, hframe, -⟩ := write_frame env w w1 data bytes r hb hw
  obtain ⟨-, hpath⟩ := write_unfold env w w1 data bytes r hb hw
  have hk1 := hinv1.1 (slotOf (InterlockedIncrement w.self.bufferindex))
  have hregion : ∀ (p : Nat) (region : List Nat),
      (w1.self.bufferar (slotOf (InterlockedIncrement w.self.bufferindex))).header.lpData = some p →
      w1.heap.blocks p = some region → region.take bytes = data →
      ∃ region, dataOf w1 (slotOf (InterlockedIncrement w.self.bufferindex)) = some region ∧
        region.take bytes = data ∧
        region.length =
          (w1.self.bufferar (slotOf (InterlockedIncrement w.self.bufferindex))).buffersize := by
    intro p region hp hreg htake
    unfold SlotOk at hk1
    rw [hp] at hk1
    obtain ⟨region2, hreg2, hsize2⟩ := hk1
    rw [hreg] at hreg2
    injection hreg2 with hreg2
    subst hreg2
    refine ⟨region, ?_, htake, hsize2.symm⟩
    unfold dataOf
    rw [hp]
    exact hreg
  have hfin : ∀ j, j ≠ slotOf (InterlockedIncrement w.self.bufferindex) →
      w1.self.bufferar j = w.self.bufferar j ∧ dataOf w1 j = dataOf w j :=
    fun j hj => ⟨hframe j hj, hothers j hj⟩
  rcases hpath with ⟨hlt, hg⟩ | ⟨hge, hsub⟩
  · obtain ⟨-, hc⟩ := grow_cases env _ w1 _ data bytes r hg
    rcases hc with ⟨-, h33, -⟩ | ⟨-, -, hc⟩
    · exact absurd h33 hne33
    · rcases hc with ⟨hm, -⟩ | ⟨-, hp, -⟩ |
        ⟨-, -, -, -, hr, hlp, -, hlen, hsize, -, -, hblocks, -⟩
      · rw [hmalloc] at hm; cases hm
      · exact absurd hprep hp
      · have hrS := hr hwrite
        subst hrS
        refine ⟨w1, hw, ?_, hlen, ?_, hfin, hidx, hinv1⟩
        · rw [hsize]
          exact (max_eq_right (le_of_lt hlt)).symm
        · apply hregion _ _ hlp (by rw [hblocks]; exact Function.update_same _ _ _)
          rw [← hdata]
          simp
  · obtain ⟨p, region, hp, hreg, hl1, hl2, -, -, hblocks, -, hslot, -, -, hr⟩ :=
      submit_cases env _ w1 _ data bytes r hsub
    have hrS := hr hwrite
    subst hrS
    refine ⟨w1, hw, ?_, ?_, ?_, hfin, hidx, hinv1⟩
    · rw [hslot]
      exact (max_eq_left hge).symm
    · rw [hslot]
    · apply hregion p _ (by rw [hslot]; exact hp)
        (by rw [hblocks]; exact Function.update_same _ _ _)
      rw [← hdata]
      simp

/-- C3 (amended): on an open sink, a write of `0 < n < 2^32` bytes of a data
block of `n` bytes, whose selected slot is signalled and whose allocation and
driver calls all succeed, returns `S_OK`.  The selected slot ends with
capacity `max old n`, length field `n`, and a live data block whose first `n`
bytes are `data`; the other three slots (capacity, length field, flags,
event) and their data blocks are unchanged. -/
theorem write_success (env : WriteEnv) (w : World) (data : List Nat) (n : Nat)
    (hopen : OpenSink w) (hpos : 0 < n) (hdword : n < 4294967296) (hdata : data.length = n)
    (hready : (w.self.bufferar (slotOf (InterlockedIncrement w.self.bufferindex))).ready.signaled
      = true)
    (hun : env.unprepare = MMSYSERR_NOERROR) (hmalloc : env.mallocOk = true)
    (hprep : env.prepare = MMSYSERR_NOERROR) (hwrite : env.write = MMSYSERR_NOERROR) :
    ∃ w1, waveout_object_write env w data n = Outcome.returns S_OK w1 ∧
      (w1.self.bufferar (slotOf (InterlockedIncrement w.self.bufferindex))).buffersize =
        max (w.self.bufferar (slotOf (InterlockedIncrement w.self.bufferindex))).buffersize n ∧
      (w1.self.bufferar (slotOf (InterlockedIncrement w.self.bufferindex))).header.dwBufferLength
        = n ∧
      (∃ region, dataOf w1 (slotOf (InterlockedIncrement w.self.bufferindex)) = some region ∧
        region.take n = data) ∧
      (∀ j, j ≠ slotOf (InterlockedIncrement w.self.bufferindex) →
        w1.self.bufferar j = w.self.bufferar j ∧ dataOf w1 j = dataOf w j) := by
  obtain ⟨w1, h1, h2, h3, ⟨region, h4, h5, -⟩, h6, -, -⟩ :=
    write_ok env w data n hopen.inv hpos hdata hready hun hmalloc hprep hwrite
  refine ⟨w1, h1, h2, ?_, ⟨region, h4, h5⟩, h6⟩
  rw [h3]
  exact Nat.mod_eq_of_lt hdword

/-- A run that returns ends in the world `after` names. -/
theorem run_after (ops : List Op) (h : (run openWorld ops).isSome = true) :
    run openWorld ops = some (after ops) := by
  unfold after
  cases hr : run openWorld ops with
  | none => rw [hr] at h; cases h
  | some w => rfl

set_option maxRecDepth 1000000 in
/-- Witness for C3, the growing-buffer scenario: on the opened sink a 512-byte
write takes the capacity of slot 1 from 0 to 512; four writes later an
8192-byte write selects slot 1 again and takes it from 512 to 8192. -/
theorem write_success_witness :
    (openWorld.self.bufferar 1).buffersize = 0 ∧
    (∃ w1, waveout_object_write okWrite openWorld (List.replicate 512 0) 512 =
        Outcome.returns S_OK w1 ∧ (w1.self.bufferar 1).buffersize = 512) ∧
    ((after growOps).self.bufferar 1).buffersize = 512 ∧
    (∃ w2, waveout_object_write okWrite (after growOps) (List.replicate 8192 7) 8192 =
        Outcome.returns S_OK w2 ∧ (w2.self.bufferar 1).buffersize = 8192 ∧
        (w2.self.bufferar 1).header.dwBufferLength = 8192) := by
  have hopen1 : OpenSink openWorld := ⟨okOpen, world0, 0, 22050, 1, openWorld, [], rfl, rfl⟩
  have hopen2 : OpenSink (after growOps) :=
    ⟨okOpen, world0, 0, 22050, 1, openWorld, growOps, rfl, run_after growOps (by decide)⟩
  have hk1 : slotOf (InterlockedIncrement openWorld.self.bufferindex) = 1 := by decide
  have hk2 : slotOf (InterlockedIncrement (after growOps).self.bufferindex) = 1 := by decide
  have hr1 : (openWorld.self.bufferar 1).ready.signaled = true := by decide
  have hr2 : ((after growOps).self.bufferar 1).ready.signaled = true := by decide
  obtain ⟨w1, a1, b1, -⟩ := write_success okWrite openWorld (List.replicate 512 0) 512 hopen1
    (by decide) (by decide) (List.length_replicate _ _) (by rw [hk1]; exact hr1) rfl rfl rfl rfl
  obtain ⟨w2, a2, b2, c2, -⟩ := write_success okWrite (after growOps) (List.replicate 8192 7) 8192
    hopen2 (by decide) (by decide) (List.length_replicate _ _) (by rw [hk2]; exact hr2) rfl rfl rfl rfl
  rw [hk1] at b1
  rw [hk2] at b2 c2
  have s0 : (openWorld.self.bufferar 1).buffersize = 0 := by decide
  have s1 : ((after growOps).self.bufferar 1).buffersize = 512 := by decide
  rw [s0] at b1
  rw [s1] at b2
  exact ⟨s0, ⟨w1, a1, b1⟩, s1, ⟨w2, a2, b2, c2⟩⟩

/-- C3 (counterexample): `dwBufferLength` is a DWORD.  On the opened sink a
write of 2^32 bytes on which everything succeeds returns `S_OK` and leaves slot
1 with capacity 2^32 but length field 0, not `n`. -/
theorem write_length_field_wraps :
    ∃ w1, waveout_object_write okWrite openWorld (List.replicate 4294967296 0) 4294967296 =
        Outcome.returns S_OK w1 ∧
      (w1.self.bufferar 1).buffersize = 4294967296 ∧
      (w1.self.bufferar 1).header.dwBufferLength = 0 ∧
      (w1.self.bufferar 1).header.dwBufferLength ≠ 4294967296 := by
  have hinv : Inv openWorld :=
    open_inv okOpen world0 openWorld 0 22050 1 rfl
  have hk1 : slotOf (InterlockedIncrement openWorld.self.bufferindex) = 1 := by decide
  have hr1 : (openWorld.self.bufferar 1).ready.signaled = true := by decide
  obtain ⟨w1, a1, b1, c1, -⟩ := write_ok okWrite openWorld (List.replicate 4294967296 0)
    4294967296 hinv (by decide) (List.length_replicate _ _) (by rw [hk1]; exact hr1)
    rfl rfl rfl rfl
  rw [hk1] at b1 c1
  have s0 : (openWorld.self.bufferar 1).buffersize = 0 := by decide
  rw [s0] at b1
  have hz : toDWORD 4294967296 = 0 := by decide
  rw [hz] at c1
  refine ⟨w1, a1, b1, c1, ?_⟩
  rw [c1]
  decide

/-! ### The submission counter -/

/-- The slot index is the counter modulo 4 (Euclidean), also for negative values. -/
theorem slotOf_val (i : Int) : (slotOf i).val = (i % 4).toNat := by
  have h := Nat.and_pow_two_sub_one_eq_mod (i % 4294967296).toNat 2
  simp only [slotOf, BUFFERMASK]
  have h3 : (2 : Nat) ^ 2 - 1 = 3 := by norm_num
  rw [h3] at h
  rw [h]
  omega

/-- Wrapping keeps values in the range of a `LONG` and is the identity there. -/
theorem wrapLong_range (v : Int) :
    -2147483648 ≤ wrapLong v ∧ wrapLong v < 2147483648 ∧
    (-2147483648 ≤ v → v < 2147483648 → wrapLong v = v) := by
  unfold wrapLong
  omega

/-- Wrapping an intermediate value does not change the wrapped sum. -/
theorem wrapLong_add (a b : Int) : wrapLong (wrapLong a + b) = wrapLong (a + b) := by
  unfold wrapLong
  omega

/-- Wrapping does not change the slot. -/
theorem slotOf_wrapLong (v : Int) : slotOf (wrapLong v) = slotOf v := by
  apply Fin.ext
  rw [slotOf_val, slotOf_val]
  unfold wrapLong
  omega

/-- The counter after a step that returns: incremented (with wrap-around) by a
non-empty write, unchanged by anything else. -/
theorem step_counter (w w1 : World) (op : Op) (h : step w op = some w1) :
    w1.self.bufferindex = wrapLong (w.self.bufferindex + writesIn [op]) ∨
    (writesIn [op] = 0 ∧ w1.self.bufferindex = w.self.bufferindex) := by
  cases op with
  | write env data bytes =>
    simp only [step] at h
    split at h
    · rename_i r w2 hw
      injection h with h
      subst h
      by_cases hb : bytes = 0
      · subst hb
        rw [write_zero] at hw
        injection hw with _ hw2
        right
        exact ⟨by simp [writesIn], by rw [← hw2]⟩
      · left
        have := (write_frame env w w2 data bytes r hb hw).1
        rw [this]
        simp [writesIn, hb, InterlockedIncrement]
    · cases h
  | drain =>
    right
    simp only [step, waveout_object_drain] at h
    split at h
    · rename_i r w2 hw
      split at hw
      · injection hw with _ hw2
        injection h with h
        exact ⟨rfl, by rw [← h, ← hw2]⟩
      · cases hw
    · cases h
  | flush =>
    right
    simp only [step, waveout_object_flush] at h
    injection h with h
    subst h
    exact ⟨rfl, rfl⟩
  | callback m =>
    right
    simp only [step] at h
    injection h with h
    subst h
    exact ⟨rfl, (waveoutcallback_fields w.self m).2.2⟩

/-- The number of writes in a list of steps adds up. -/
theorem writesIn_cons (op : Op) (rest : List Op) :
    writesIn (op :: rest) = writesIn [op] + writesIn rest := by
  cases op <;> simp [writesIn]

/-- The counter after a run that returns, from a counter in the range of a
`LONG`: the start plus the number of non-empty writes, wrapped. -/
theorem run_counter (ops : List Op) : ∀ (w w1 : World),
    -2147483648 ≤ w.self.bufferindex → w.self.bufferindex < 2147483648 →
    run w ops = some w1 →
    w1.self.bufferindex = wrapLong (w.self.bufferindex + writesIn ops) := by
  induction ops with
  | nil =>
    intro w w1 h1 h2 h
    simp only [run] at h
    injection h with h
    subst h
    simp only [writesIn, Nat.cast_zero, add_zero]
    exact ((wrapLong_range _).2.2 h1 h2).symm
  | cons op rest ih =>
    intro w w1 h1 h2 h
    simp only [run] at h
    obtain ⟨w2, hs, hr⟩ := Option.bind_eq_some.mp h
    rw [writesIn_cons]
    rcases step_counter w w2 op hs with hc | ⟨hz, hc⟩
    · have hrange := wrapLong_range (w.self.bufferindex + writesIn [op])
      rw [← hc] at hrange
      rw [ih w2 w1 hrange.1 hrange.2.1 hr, hc, wrapLong_add]
      congr 1
      push_cast
      ring
    · rw [ih w2 w1 (by rw [hc]; exact h1) (by rw [hc]; exact h2) hr, hc, hz]
      simp

/-- The slot of the write that follows `n` writes on a counter started at 0. -/
theorem slot_after_writes (n : Nat) :
    ((wrapLong (wrapLong (n : Int) + 1)) % 4).toNat = (n + 1) % 4 := by
  unfold wrapLong
  omega

/-- The counter values around the largest `LONG`. -/
theorem wrapLong_at_max :
    wrapLong (0 + ((2147483647 : Nat) : Int)) = 2147483647 ∧
    InterlockedIncrement 2147483647 = -2147483648 ∧
    wrapLong (2147483647 + 1) = -2147483648 := by
  unfold InterlockedIncrement wrapLong
  omega

/-- A slot with no capacity and no data is what the failed allocation leaves. -/
theorem mallocFailed_same (b : wavebuffer) (h1 : b.buffersize = 0)
    (h2 : b.header.lpData = none) :
    ({ b with buffersize := 0, header := { b.header with lpData := none } } : wavebuffer) = b := by
  obtain ⟨⟨lp, len, fl⟩, sz, rd⟩ := b
  simp only at h1 h2
  subst h1
  subst h2
  rfl

/-- C2 (amended): a non-empty write that returns has incremented the counter
as a 32-bit `LONG`: the new value is one more than the old one, except that
2147483647 is followed by -2147483648.  The slot it waited on, and the only
slot it touched or made driver calls on, is `bufferar[new counter & 3]`, the
new counter modulo 4.  On a sink opened and then run through steps containing
`k - 1` non-empty writes the counter is `k - 1` wrapped, and this `k`-th
non-empty write selects slot `k mod 4`; the slot of write `k + 4` is the slot
of write `k`, and writes `k + 1`, `k + 2`, `k + 3` select other slots. -/
theorem write_round_robin (env : WriteEnv) (w w1 : World) (data : List Nat) (bytes : Nat)
    (r : Int) (hb : bytes ≠ 0)
    (h : waveout_object_write env w data bytes = Outcome.returns r w1) :
    w1.self.bufferindex = wrapLong (w.self.bufferindex + 1) ∧
    (-2147483648 ≤ w.self.bufferindex → w.self.bufferindex < 2147483647 →
      w1.self.bufferindex = w.self.bufferindex + 1) ∧
    (w.self.bufferindex = 2147483647 → w1.self.bufferindex = -2147483648) ∧
    (slotOf w1.self.bufferindex).val = (w1.self.bufferindex % 4).toNat ∧
    (w.self.bufferar (slotOf w1.self.bufferindex)).ready.signaled = true ∧
    (∀ j, j ≠ slotOf w1.self.bufferindex → w1.self.bufferar j = w.self.bufferar j) ∧
    (∃ added, w1.calls = w.calls ++ added ∧
      ∀ c ∈ added, c.slot = some (slotOf w1.self.bufferindex)) ∧
    (∀ (env0 : OpenEnv) (w0 wo : World) (format rate channels : Nat) (ops : List Op),
      waveout_object_open env0 w0 format rate channels = Outcome.returns S_OK wo →
      run wo ops = some w →
      w.self.bufferindex = wrapLong (writesIn ops) ∧
      (slotOf w1.self.bufferindex).val = (writesIn ops + 1) % 4) ∧
    (∀ k : Nat, slotOf (wrapLong (k + 4)) = slotOf (wrapLong k) ∧
      slotOf (wrapLong (k + 1)) ≠ slotOf (wrapLong k) ∧
      slotOf (wrapLong (k + 2)) ≠ slotOf (wrapLong k) ∧
      slotOf (wrapLong (k + 3)) ≠ slotOf (wrapLong k)) := by
  obtain ⟨hidx, hs, -, -, hframe, hcalls⟩ := write_frame env w w1 data bytes r hb h
  have hidx2 : w1.self.bufferindex = wrapLong (w.self.bufferindex + 1) := hidx
  rw [← hidx] at hs hframe hcalls
  refine ⟨hidx2, ?_, ?_, slotOf_val _, hs, hframe, hcalls, ?_, ?_⟩
  · intro h1 h2
    rw [hidx2]
    exact (wrapLong_range _).2.2 (by omega) (by omega)
  · intro h1
    rw [hidx2, h1]
    exact wrapLong_at_max.2.2
  · intro env0 w0 wo format rate channels ops hopen hrun
    obtain ⟨h0, -, -, -⟩ := open_ok_state env0 w0 wo format rate channels hopen
    have hc := run_counter ops wo w (by rw [h0]; omega) (by rw [h0]; omega) hrun
    rw [h0, zero_add] at hc
    refine ⟨hc, ?_⟩
    rw [slotOf_val, hidx2, hc]
    exact slot_after_writes _
  · intro k
    simp only [slotOf_wrapLong]
    refine ⟨?_, ?_, ?_, ?_⟩
    · apply Fin.ext
      rw [slotOf_val, slotOf_val]
      omega
    · intro he
      have := congrArg Fin.val he
      rw [slotOf_val, slotOf_val] at this
      omega
    · intro he
      have := congrArg Fin.val he
      rw [slotOf_val, slotOf_val] at this
      omega
    · intro he
      have := congrArg Fin.val he
      rw [slotOf_val, slotOf_val] at this
      omega

/-- Witness for C2: the first write on the opened sink returns and takes the
counter from 0 to 1; it is made on slot 1. -/
theorem write_round_robin_witness :
    ∃ w1, waveout_object_write okWrite openWorld [1, 2, 3, 4] 4 = Outcome.returns S_OK w1 ∧
      openWorld.self.bufferindex = 0 ∧ w1.self.bufferindex = 1 ∧
      (slotOf w1.self.bufferindex).val = 1 := by
  have hw : ∃ w1, waveout_object_write okWrite openWorld [1, 2, 3, 4] 4 =
      Outcome.returns S_OK w1 := ⟨_, rfl⟩
  obtain ⟨w1, hw⟩ := hw
  have h := write_round_robin okWrite openWorld w1 [1, 2, 3, 4] 4 S_OK (by decide) hw
  have h0 : openWorld.self.bufferindex = 0 := rfl
  have h2 := h.2.1 (by rw [h0]; omega) (by rw [h0]; omega)
  rw [h0] at h2
  refine ⟨w1, hw, h0, h2, ?_⟩
  rw [h2]
  decide

/-- A write whose allocation fails, on a slot that holds nothing, only
increments the counter. -/
theorem write_oom_fresh (w : World)
    (hfresh : ∀ i, (w.self.bufferar i).ready.signaled = true ∧
      (w.self.bufferar i).buffersize = 0 ∧ (w.self.bufferar i).header.lpData = none ∧
      isPrepared (w.self.bufferar i) = false) :
    ∃ w1, waveout_object_write oomWrite w [0] 1 = Outcome.returns 12 w1 ∧
      w1.self.bufferindex = InterlockedIncrement w.self.bufferindex ∧
      w1.heap = w.heap ∧ ∀ i, w1.self.bufferar i = w.self.bufferar i := by
  obtain ⟨hs, hsize, hlp, hprep⟩ := hfresh (slotOf (InterlockedIncrement w.self.bufferindex))
  refine ⟨mallocFailed ({ w with self := { w.self with
      bufferindex := InterlockedIncrement w.self.bufferindex } } : World)
      (slotOf (InterlockedIncrement w.self.bufferindex)), ?_, rfl, rfl, ?_⟩
  · simp [waveout_object_write, hs, hsize, grow, unprepare, hprep, freeData, hlp, oomWrite,
      okWrite]
  · intro i
    by_cases hik : i = slotOf (InterlockedIncrement w.self.bufferindex)
    · subst hik
      rw [(mallocFailed_spec _ _).2.2.2.2]
      exact mallocFailed_same _ hsize hlp
    · exact (mallocFailed_spec _ _).1.2.2.2.2.2 i hik

/-- Any number of such failing writes on a sink whose slots hold nothing
return, and leave the counter at the wrapped count. -/
theorem run_oom (n : Nat) : ∀ (w : World),
    (∀ i, (w.self.bufferar i).ready.signaled = true ∧
      (w.self.bufferar i).buffersize = 0 ∧ (w.self.bufferar i).header.lpData = none ∧
      isPrepared (w.self.bufferar i) = false) →
    -2147483648 ≤ w.self.bufferindex → w.self.bufferindex < 2147483648 →
    ∃ w1, run w (List.replicate n (Op.write oomWrite [0] 1)) = some w1 ∧
      w1.self.bufferindex = wrapLong (w.self.bufferindex + n) ∧
      ∀ i, (w1.self.bufferar i).ready.signaled = true ∧
        (w1.self.bufferar i).buffersize = 0 ∧ (w1.self.bufferar i).header.lpData = none ∧
        isPrepared (w1.self.bufferar i) = false := by
  induction n with
  | zero =>
    intro w hfresh h1 h2
    refine ⟨w, rfl, ?_, hfresh⟩
    simp only [Nat.cast_zero, add_zero]
    exact ((wrapLong_range _).2.2 h1 h2).symm
  | succ n ih =>
    intro w hfresh h1 h2
    obtain ⟨w2, hw, hidx, -, hslots⟩ := write_oom_fresh w hfresh
    have hrange := wrapLong_range (w.self.bufferindex + 1)
    have hidx2 : w2.self.bufferindex = wrapLong (w.self.bufferindex + 1) := hidx
    rw [← hidx2] at hrange
    obtain ⟨w1, hr, hc, hf⟩ := ih w2 (fun i => by rw [hslots i]; exact hfresh i)
      hrange.1 hrange.2.1
    refine ⟨w1, ?_, ?_, hf⟩
    · simp only [List.replicate_succ, run, step, hw, Option.some_bind]
      exact hr
    · rw [hc, hidx2, wrapLong_add]
      congr 1
      push_cast
      ring

/-- C2 (counterexample): after 2147483647 non-empty writes on the opened sink
(here all failing in `malloc`, which leaves every slot free) the counter is
2147483647; the next non-empty write succeeds and leaves the counter at
-2147483648, which is not one more than before. -/
theorem counter_wraps_at_long_max :
    ∃ w w1, run openWorld (List.replicate 2147483647 (Op.write oomWrite [0] 1)) = some w ∧
      w.self.bufferindex = 2147483647 ∧
      waveout_object_write okWrite w [0] 1 = Outcome.returns S_OK w1 ∧
      w1.self.bufferindex = -2147483648 ∧
      w1.self.bufferindex ≠ w.self.bufferindex + 1 := by
  have hfresh : ∀ i, (openWorld.self.bufferar i).ready.signaled = true ∧
      (openWorld.self.bufferar i).buffersize = 0 ∧
      (openWorld.self.bufferar i).header.lpData = none ∧
      isPrepared (openWorld.self.bufferar i) = false := by decide
  have h0 : openWorld.self.bufferindex = 0 := rfl
  obtain ⟨w, hrun, hc, hf⟩ := run_oom 2147483647 openWorld hfresh
    (by rw [h0]; omega) (by rw [h0]; omega)
  have hc2 : w.self.bufferindex = 2147483647 := by
    rw [hc, h0]
    exact wrapLong_at_max.1
  have hinv : Inv w := by
    refine ⟨?_, ?_⟩
    · intro i
      unfold SlotOk
      rw [(hf i).2.2.1]
      exact (hf i).2.1
    · intro i j p _ hi
      rw [(hf i).2.2.1] at hi
      cases hi
  obtain ⟨w1, hw, -, -, -, -, hidx, -⟩ := write_ok okWrite w [0] 1 hinv (by decide) rfl
    (hf _).1 rfl rfl rfl rfl
  have hidx2 : w1.self.bufferindex = -2147483648 := by
    rw [hidx, hc2]
    exact wrapLong_at_max.2.1
  refine ⟨w, w1, hrun, hc2, hw, hidx2, ?_⟩
  rw [hidx2, hc2]
  omega

/-! ### Close on an arbitrary state -/

/-- A property of the four ring slots holds for every index. -/
theorem fin4_cases {P : Fin 4 → Prop} (h0 : P 0) (h1 : P 1) (h2 : P 2) (h3 : P 3) :
    ∀ i, P i := by
  intro i
  fin_cases i
  · exact h0
  · exact h1
  · exact h2
  · exact h3

/-- The spin loop on slot `k`, when it ends: it is a step on slot `k` that
leaves heap, data pointer, capacity and event alone; if every listed answer
is success or still-playing the header is not prepared afterwards. -/
theorem spinUnprepare_spec (k : Fin 4) (answers : List Int) : ∀ (w w1 : World),
    spinUnprepare k answers w = some w1 →
    SlotStep k w w1 ∧ w1.heap = w.heap ∧
    (w1.self.bufferar k).header.lpData = (w.self.bufferar k).header.lpData ∧
    (w1.self.bufferar k).buffersize = (w.self.bufferar k).buffersize ∧
    (w1.self.bufferar k).ready = (w.self.bufferar k).ready ∧
    ((∀ mr ∈ answers, mr = MMSYSERR_NOERROR ∨ mr = WAVERR_STILLPLAYING) →
      isPrepared (w1.self.bufferar k) = false) := by
  induction answers with
  | nil =>
    intro w w1 h
    simp only [spinUnprepare] at h
    split at h
    · cases h
    · rename_i hp
      injection h with h
      subst h
      exact ⟨SlotStep.rfl k w, rfl, rfl, rfl, rfl, fun _ => by simpa using hp⟩
  | cons mr rest ih =>
    intro w w1 h
    obtain ⟨ustep, uheap, ulp, -, usize, uready, ubusy, uerr, uok, -⟩ := unprepare_spec mr w k
    simp only [spinUnprepare] at h
    cases hu : unprepare mr w k with
    | mk busy wu =>
      rw [hu] at h ustep uheap ulp usize uready ubusy uerr uok
      simp only at h ustep uheap ulp usize uready ubusy uerr uok
      cases busy with
      | true =>
        simp only at h
        obtain ⟨rstep, rheap, rlp, rsize, rready, rprep⟩ := ih (wu.log Call.Sleep) w1 h
        refine ⟨ustep.trans rstep, by rw [rheap]; exact uheap, by rw [rlp]; exact ulp,
          by rw [rsize]; exact usize, by rw [rready]; exact uready, ?_⟩
        intro hall
        exact rprep (fun m hm => hall m (List.mem_cons_of_mem _ hm))
      | false =>
        simp only at h
        injection h with h
        subst h
        refine ⟨ustep, uheap, ulp, usize, uready, ?_⟩
        intro hall
        rcases hall mr (List.mem_cons_self _ _) with h0 | h33
        · exact uok h0
        · have hne : mr ≠ MMSYSERR_NOERROR := by rw [h33]; decide
          rw [(uerr hne).1]
          cases hp : isPrepared (w.self.bufferar k) with
          | false => rfl
          | true => exact absurd (ubusy.mpr ⟨hp, h33⟩) Bool.false_ne_true

/-- The spin loop on slot `k` ends when the answers contain one that is not
still-playing. -/
theorem spinUnprepare_returns (k : Fin 4) (answers : List Int) : ∀ (w : World),
    (∃ mr ∈ answers, mr ≠ WAVERR_STILLPLAYING) → ∃ w1, spinUnprepare k answers w = some w1 := by
  induction answers with
  | nil =>
    intro w h
    obtain ⟨mr, hm, -⟩ := h
    cases hm
  | cons mr rest ih =>
    intro w h
    obtain ⟨-, -, -, -, -, -, ubusy, -, -, -⟩ := unprepare_spec mr w k
    simp only [spinUnprepare]
    cases hu : unprepare mr w k with
    | mk busy wu =>
      rw [hu] at ubusy
      simp only at ubusy
      cases busy with
      | false => exact ⟨wu, rfl⟩
      | true =>
        simp only
        apply ih
        obtain ⟨m, hm, hne⟩ := h
        rcases List.mem_cons.mp hm with he | hr
        · subst he
          exact absurd (ubusy.mp rfl).2 hne
        · exact ⟨m, hr, hne⟩

/-- The first loop of close, when it ends: heap, data pointers, capacities and
events are untouched; if every listed answer is success or still-playing no
header is prepared afterwards. -/
theorem unprepareAll_spec (env : CloseEnv) (w w4 : World) (h : unprepareAll env w = some w4) :
    w4.heap = w.heap ∧ w4.self.format = w.self.format ∧
    (∀ i, (w4.self.bufferar i).header.lpData = (w.self.bufferar i).header.lpData ∧
      (w4.self.bufferar i).buffersize = (w.self.bufferar i).buffersize ∧
      (w4.self.bufferar i).ready = (w.self.bufferar i).ready) ∧
    ((∀ i, ∀ mr ∈ env.unprepare i, mr = MMSYSERR_NOERROR ∨ mr = WAVERR_STILLPLAYING) →
      ∀ i, isPrepared (w4.self.bufferar i) = false) := by
  unfold unprepareAll at h
  obtain ⟨w3, h3, h4⟩ := Option.bind_eq_some.mp h
  obtain ⟨w2, h2, h3⟩ := Option.bind_eq_some.mp h3
  obtain ⟨w1, h1, h2⟩ := Option.bind_eq_some.mp h2
  obtain ⟨s1, a1, b1, c1, d1, e1⟩ := spinUnprepare_spec 0 _ w w1 h1
  obtain ⟨s2, a2, b2, c2, d2, e2⟩ := spinUnprepare_spec 1 _ w1 w2 h2
  obtain ⟨s3, a3, b3, c3, d3, e3⟩ := spinUnprepare_spec 2 _ w2 w3 h3
  obtain ⟨s4, a4, b4, c4, d4, e4⟩ := spinUnprepare_spec 3 _ w3 w4 h4
  have f1 := s1.2.2.2.2.2
  have f2 := s2.2.2.2.2.2
  have f3 := s3.2.2.2.2.2
  have f4 := s4.2.2.2.2.2
  refine ⟨by rw [a4, a3, a2, a1], by rw [s4.2.1, s3.2.1, s2.2.1, s1.2.1], ?_, ?_⟩
  · apply fin4_cases
    · rw [f4 0 (by decide), f3 0 (by decide), f2 0 (by decide)]
      exact ⟨b1, c1, d1⟩
    · rw [f4 1 (by decide), f3 1 (by decide)]
      exact ⟨by rw [b2, f1 1 (by decide)], by rw [c2, f1 1 (by decide)],
        by rw [d2, f1 1 (by decide)]⟩
    · rw [f4 2 (by decide)]
      exact ⟨by rw [b3, f2 2 (by decide), f1 2 (by decide)],
        by rw [c3, f2 2 (by decide), f1 2 (by decide)],
        by rw [d3, f2 2 (by decide), f1 2 (by decide)]⟩
    · exact ⟨by rw [b4, f3 3 (by decide), f2 3 (by decide), f1 3 (by decide)],
        by rw [c4, f3 3 (by decide), f2 3 (by decide), f1 3 (by decide)],
        by rw [d4, f3 3 (by decide), f2 3 (by decide), f1 3 (by decide)]⟩
  · intro hall
    apply fin4_cases
    · rw [f4 0 (by decide), f3 0 (by decide), f2 0 (by decide)]
      exact e1 (hall 0)
    · rw [f4 1 (by decide), f3 1 (by decide)]
      exact e2 (hall 1)
    · rw [f4 2 (by decide)]
      exact e3 (hall 2)
    · exact e4 (hall 3)

/-- The first loop of close ends when for every slot the answers contain one
that is not still-playing. -/
theorem unprepareAll_returns (env : CloseEnv) (w : World)
    (h : ∀ i, ∃ mr ∈ env.unprepare i, mr ≠ WAVERR_STILLPLAYING) :
    ∃ w4, unprepareAll env w = some w4 := by
  obtain ⟨w1, h1⟩ := spinUnprepare_returns 0 _ w (h 0)
  obtain ⟨w2, h2⟩ := spinUnprepare_returns 1 _ w1 (h 1)
  obtain ⟨w3, h3⟩ := spinUnprepare_returns 2 _ w2 (h 2)
  obtain ⟨w4, h4⟩ := spinUnprepare_returns 3 _ w3 (h 3)
  exact ⟨w4, by simp [unprepareAll, h1, h2, h3, h4]⟩

/-- The close message raises every event. -/
theorem callback_close_signals (self : waveout_object) :
    ∀ i, ((waveoutcallback self Msg.WOM_CLOSE).bufferar i).ready.signaled = true := by
  have h0 := fun i => setEvent_slot self 0 i
  have h1 := fun i => setEvent_slot (setEvent self 0) 1 i
  have h2 := fun i => setEvent_slot (setEvent (setEvent self 0) 1) 2 i
  have h3 := fun i => setEvent_slot (setEvent (setEvent (setEvent self 0) 1) 2) 3 i
  simp only [waveoutcallback]
  apply fin4_cases
  · exact (h3 0).2.2.2.1 ((h2 0).2.2.2.1 ((h1 0).2.2.2.1 (h0 0).2.2.2.2))
  · exact (h3 1).2.2.2.1 ((h2 1).2.2.2.1 (h1 1).2.2.2.2)
  · exact (h3 2).2.2.2.1 (h2 2).2.2.2.2
  · exact (h3 3).2.2.2.2

/-- Callbacks that include the close message leave every event raised. -/
theorem callbacks_close_signal (ms : List Msg) : ∀ (self : waveout_object),
    Msg.WOM_CLOSE ∈ ms → ∀ i, ((ms.foldl waveoutcallback self).bufferar i).ready.signaled = true := by
  induction ms with
  | nil => intro self h; cases h
  | cons m rest ih =>
    intro self h i
    simp only [List.foldl_cons]
    rcases List.mem_cons.mp h with he | hr
    · subst he
      exact (callbacks_slot rest _ i).2.2.2.1 (callback_close_signals self i)
    · exact ih _ hr i

/-- The function `finibuffer` returns when the data pointer of the slot is null or live. -/
theorem finibuffer_returns (w : World) (k : Fin 4)
    (h : ∀ p, (w.self.bufferar k).header.lpData = some p → w.heap.blocks p ≠ none) :
    ∃ w1, finibuffer w k = some w1 := by
  obtain ⟨wf, hf⟩ := freeData_returns w k h
  exact ⟨closeReady wf k, by simp only [finibuffer, hf, Option.map_some']⟩

/-- The finalising loop returns when the data pointers are null or live and no
two slots share a block. -/
theorem finiAll_returns (w : World)
    (hlive : ∀ i p, (w.self.bufferar i).header.lpData = some p → w.heap.blocks p ≠ none)
    (hdis : ∀ i j p, i ≠ j → (w.self.bufferar i).header.lpData = some p →
      (w.self.bufferar j).header.lpData ≠ some p) :
    ∃ w4, finiAll w = some w4 := by
  -- one step keeps the blocks of the slots still to be finalised live
  have hstep : ∀ (wa wb : World) (k : Fin 4) (P : Fin 4 → Prop), finibuffer wa k = some wb →
      (∀ i, (wa.self.bufferar i).header = (w.self.bufferar i).header) →
      (∀ i, P i → ∀ p, (w.self.bufferar i).header.lpData = some p → wa.heap.blocks p ≠ none) →
      (∀ i, (wb.self.bufferar i).header = (w.self.bufferar i).header) ∧
      (∀ i, P i → i ≠ k → ∀ p, (w.self.bufferar i).header.lpData = some p →
        wb.heap.blocks p ≠ none) := by
    intro wa wb k P hf hhdr hl
    have hs := finibuffer_spec wa wb k hf
    have hg := finibuffer_heap wa wb k hf
    refine ⟨fun i => by rw [(hs.2.2.2.2.2.2.1 i).1, hhdr i], ?_⟩
    intro i hP hik p hp
    rw [hg.2.2 p (by
      rw [hhdr k]
      intro hk
      exact hdis i k p hik hp hk)]
    exact hl i hP p hp
  obtain ⟨w1, h1⟩ := finibuffer_returns w 0 (hlive 0)
  obtain ⟨d1, l1⟩ := hstep w w1 0 (fun _ => True) h1 (fun _ => rfl) (fun i _ p hp => hlive i p hp)
  obtain ⟨w2, h2⟩ := finibuffer_returns w1 1
    (fun p hp => l1 1 trivial (by decide) p (by rw [← d1 1]; exact hp))
  obtain ⟨d2, l2⟩ := hstep w1 w2 1 (fun i => i ≠ 0) h2 d1 (fun i hi p hp => l1 i trivial hi p hp)
  obtain ⟨w3, h3⟩ := finibuffer_returns w2 2
    (fun p hp => l2 2 (by decide) (by decide) p (by rw [← d2 2]; exact hp))
  obtain ⟨d3, l3⟩ := hstep w2 w3 2 (fun i => i ≠ 0 ∧ i ≠ 1) h3 d2
    (fun i hi p hp => l2 i hi.1 hi.2 p hp)
  obtain ⟨w4, h4⟩ := finibuffer_returns w3 3
    (fun p hp => l3 3 ⟨by decide, by decide⟩ (by decide) p (by rw [← d3 3]; exact hp))
  exact ⟨w4, by simp [finiAll, h1, h2, h3, h4]⟩

/-- What close has done once it returns, on any state: every handle is closed,
no data pointer refers to a live block, the format pointer is null and a
non-null descriptor was released; if the driver answered every deregistration
with success or still-playing, no header is prepared. -/
theorem close_post (env : CloseEnv) (w w1 : World)
    (h : waveout_object_close env w = Outcome.returns () w1) :
    (∀ i, (w1.self.bufferar i).ready.closed = true ∧ dataOf w1 i = none) ∧
    w1.self.format = none ∧
    (∀ p, w.self.format = some p → Call.CoTaskMemFree p ∈ w1.calls) ∧
    ((∀ i, ∀ mr ∈ env.unprepare i, mr = MMSYSERR_NOERROR ∨ mr = WAVERR_STILLPLAYING) →
      ∀ i, isPrepared (w1.self.bufferar i) = false) := by
  unfold waveout_object_close at h
  simp only at h
  split at h
  · cases h
  · rename_i wb hb
    split at h
    · split at h
      · cases h
      · rename_i wc hc
        injection h with _ h
        subst h
        obtain ⟨-, ufmt, -, uprep⟩ := unprepareAll_spec env _ wb hb
        obtain ⟨-, fcalls, ffmt, -, -, -, fsl, fdata, -, -⟩ := finiAll_spec wb wc hc
        obtain ⟨rfmt, rheap, -, rbuf, -, -, rcalls⟩ := releaseFormat_spec wc
        refine ⟨?_, rfmt, ?_, ?_⟩
        · intro i
          rw [rbuf]
          refine ⟨(fsl i).2.2.2, ?_⟩
          unfold dataOf
          rw [rbuf, rheap]
          cases hp : (wc.self.bufferar i).header.lpData with
          | none => rfl
          | some p => exact fdata i p hp
        · intro p hp
          have hfmt : wc.self.format = some p := by
            rw [ffmt, ufmt]
            rw [← hp]
            exact (callbacks_slot env.callbacks _ 0).2.2.2.2.1
          rw [rcalls, hfmt]
          simp
        · intro hall i
          have := uprep hall i
          rw [rbuf]
          simp only [isPrepared] at this ⊢
          rw [(fsl i).1]
          exact this
    · cases h

/-- Close returns on a state that satisfies the memory invariant when the
driver delivers the close message and, for every slot, some listed answer to
the deregistration is not still-playing. -/
theorem close_returns (env : CloseEnv) (w : World) (hinv : Inv w)
    (hmsg : Msg.WOM_CLOSE ∈ env.callbacks)
    (hans : ∀ i, ∃ mr ∈ env.unprepare i, mr ≠ WAVERR_STILLPLAYING) :
    ∃ w1, waveout_object_close env w = Outcome.returns () w1 := by
  obtain ⟨wb, hb⟩ := unprepareAll_returns env
    ({ (w.log (Call.waveOutClose w.self.waveout)) with
      self := env.callbacks.foldl waveoutcallback (w.log (Call.waveOutClose w.self.waveout)).self }
      : World) hans
  obtain ⟨uheap, -, usl, -⟩ := unprepareAll_spec env _ wb hb
  have hcb := fun i => callbacks_slot env.callbacks w.self i
  have hsig := callbacks_close_signal env.callbacks w.self hmsg
  have hready : allReady wb = true := by
    unfold allReady
    rw [(usl 0).2.2, (usl 1).2.2, (usl 2).2.2, (usl 3).2.2]
    have s0 := hsig 0
    have s1 := hsig 1
    have s2 := hsig 2
    have s3 := hsig 3
    simp only [World.log] at s0 s1 s2 s3 ⊢
    rw [s0, s1, s2, s3]
    rfl
  have hlp : ∀ i, (wb.self.bufferar i).header.lpData = (w.self.bufferar i).header.lpData := by
    intro i
    rw [(usl i).1]
    exact congrArg WAVEHDR.lpData (hcb i).1
  obtain ⟨wc, hc⟩ := finiAll_returns wb
    (by
      intro i p hp
      rw [hlp i] at hp
      have hok := hinv.1 i
      unfold SlotOk at hok
      rw [hp] at hok
      obtain ⟨region, hreg, -⟩ := hok
      rw [uheap]
      show w.heap.blocks p ≠ none
      rw [hreg]
      exact Option.some_ne_none _)
    (by
      intro i j p hij hi hj
      rw [hlp i] at hi
      rw [hlp j] at hj
      exact hinv.2 i j p hij hi hj)
  refine ⟨releaseFormat wc, ?_⟩
  unfold waveout_object_close
  simp only [hb, hready, hc, if_true]

/-- C7 (amended): on an open sink (any state reached from a successful open by
writes, failed or not, drains, flushes and callbacks), close returns when the
driver delivers the close message and answers the deregistration of every
slot with success after any number of still-playing answers.  Once close
returns, whatever the driver answered, no slot holds a live byte region, every
handle is closed, and the format descriptor is released and null; and if the
driver's answers to the deregistration calls of this close were success or
still-playing only, no header has the PREPARED flag.  Open, close, open,
close, on any platform, all return and leave the heap and the driver's
registration count as they were before the first open, with a null format
pointer, no header prepared and no slot data. -/
theorem close_releases (env : CloseEnv) (w : World) (hopen : OpenSink w) :
    (Msg.WOM_CLOSE ∈ env.callbacks → (∀ i, MMSYSERR_NOERROR ∈ env.unprepare i) →
      ∃ w1, waveout_object_close env w = Outcome.returns () w1) ∧
    (∀ w1, waveout_object_close env w = Outcome.returns () w1 →
      (∀ i, dataOf w1 i = none ∧ (w1.self.bufferar i).ready.closed = true) ∧
      w1.self.format = none ∧
      (∀ p, w.self.format = some p → Call.CoTaskMemFree p ∈ w1.calls) ∧
      ((∀ i, ∀ mr ∈ env.unprepare i, mr = MMSYSERR_NOERROR ∨ mr = WAVERR_STILLPLAYING) →
        ∀ i, isPrepared (w1.self.bufferar i) = false)) ∧
    (∀ (w0 : World) (e1 e2 : OpenEnv) (c1 c2 : CloseEnv) (format rate channels : Nat),
      ∃ r1 w1 w2 r2 w3 w4,
        waveout_object_open e1 w0 format rate channels = Outcome.returns r1 w1 ∧
        waveout_object_close c1 w1 = Outcome.returns () w2 ∧
        waveout_object_open e2 w2 format rate channels = Outcome.returns r2 w3 ∧
        waveout_object_close c2 w3 = Outcome.returns () w4 ∧
        w4.regs = w0.regs ∧ w4.heap = w0.heap ∧ w4.self.format = none ∧
        ∀ i, isPrepared (w4.self.bufferar i) = false ∧ dataOf w4 i = none) := by
  refine ⟨?_, ?_, ?_⟩
  · intro hmsg hans
    exact close_returns env w hopen.inv hmsg
      (fun i => ⟨MMSYSERR_NOERROR, hans i, by decide⟩)
  · intro w1 h
    obtain ⟨hsl, hfmt, hrel, hprep⟩ := close_post env w w1 h
    exact ⟨fun i => ⟨(hsl i).2, (hsl i).1⟩, hfmt, hrel, hprep⟩
  · intro w0 e1 e2 c1 c2 format rate channels
    obtain ⟨r1, w1, ho1, -, -, -, -, hh1, hr1, hf1⟩ := open_cases e1 w0 format rate channels
    obtain ⟨w2, hc1, -, hh2, hr2, -, -, -, hs2⟩ := close_of_fresh c1 w1 hf1
    obtain ⟨r2, w3, ho2, -, -, -, -, hh3, hr3, hf3⟩ := open_cases e2 w2 format rate channels
    obtain ⟨w4, hc2, hfmt4, hh4, hr4, -, -, -, hs4⟩ := close_of_fresh c2 w3 hf3
    refine ⟨r1, w1, w2, r2, w3, w4, ho1, hc1, ho2, hc2, by rw [hr4, hr3, hr2, hr1],
      by rw [hh4, hh3, hh2, hh1], hfmt4, ?_⟩
    intro i
    have hp := (hf3 i).1
    have hl := (hf3 i).2.1
    refine ⟨?_, ?_⟩
    · simp only [isPrepared] at hp ⊢
      rw [(hs4 i).1]
      exact hp
    · unfold dataOf
      rw [(hs4 i).1, hl]

/-- Witness for C7: after a write and its completion on the opened sink, slot 1
is registered and holds its four bytes.  Close against a driver that delivers
the close message and answers every deregistration with success returns, and
leaves no slot data, every handle closed, a null format pointer and no header
prepared.  Close against a driver that answers every deregistration with
`MMSYSERR_INVALHANDLE` returns too, and leaves no slot data, every handle
closed and a null format pointer. -/
theorem close_releases_witness :
    OpenSink (after playOps) ∧ isPrepared ((after playOps).self.bufferar 1) = true ∧
    dataOf (after playOps) 1 = some [1, 2, 3, 4] ∧
    (∃ w1, waveout_object_close okClose (after playOps) = Outcome.returns () w1 ∧
      (∀ i, dataOf w1 i = none ∧ (w1.self.bufferar i).ready.closed = true) ∧
      w1.self.format = none ∧
      ∀ i, isPrepared (w1.self.bufferar i) = false) ∧
    (∃ w1, waveout_object_close errClose (after playOps) = Outcome.returns () w1 ∧
      (∀ i, dataOf w1 i = none ∧ (w1.self.bufferar i).ready.closed = true) ∧
      w1.self.format = none) := by
  have hopen : OpenSink (after playOps) :=
    ⟨okOpen, world0, 0, 22050, 1, openWorld, playOps, rfl, run_after playOps (by decide)⟩
  have hcoop : ∀ i, ∀ mr ∈ okClose.unprepare i,
      mr = MMSYSERR_NOERROR ∨ mr = WAVERR_STILLPLAYING := by
    intro i mr hmr
    simp only [okClose, List.mem_singleton] at hmr
    exact Or.inl hmr
  have h := close_releases okClose (after playOps) hopen
  obtain ⟨w1, hw1⟩ := h.1 (by decide) (fun i => by simp [okClose, MMSYSERR_NOERROR])
  have hpost := h.2.1 w1 hw1
  have herr := (close_releases errClose (after playOps) hopen).2.1 _ rfl
  exact ⟨hopen, by decide, by decide, ⟨w1, hw1, hpost.1, hpost.2.1, hpost.2.2.2 hcoop⟩,
    ⟨_, rfl, herr.1, herr.2.1⟩⟩

/-- C7 (counterexample): the same open sink, closed against a driver that
answers the deregistration of slot 1 with `MMSYSERR_INVALHANDLE` (5): the
loop takes the answer as "not busy", close returns, the data block of slot 1
is freed, and the header of slot 1 still has the PREPARED flag. -/
theorem close_leaves_header_prepared :
    OpenSink (after playOps) ∧
    ∃ w1, waveout_object_close errClose (after playOps) = Outcome.returns () w1 ∧
      isPrepared (w1.self.bufferar 1) = true ∧ dataOf w1 1 = none ∧ w1.regs = 1 := by
  have hopen : OpenSink (after playOps) :=
    ⟨okOpen, world0, 0, 22050, 1, openWorld, playOps, rfl, run_after playOps (by decide)⟩
  exact ⟨hopen, _, rfl, by decide, by decide, by decide⟩

end Waveout
